import Mathlib

/-!
Verification of the content-indexing and extension-pipeline core of the
My-Blog repository (TypeScript sources under `src/core` and the cache /
plugin modules).  The TypeScript code is shallowly embedded: JavaScript
`Map`s become association lists in insertion order, `Date.now()` becomes an
explicit `now : Int` argument threaded through the operations, promises and
timeout races become explicit outcome values, and methods that can `throw`
return `Except`.  Fields and behaviours examined by no claim (console
logging, highlight markup text) are carried only as far as the control flow
needs them.
-/

set_option maxRecDepth 10000

namespace Blog

/-! ## JavaScript `Map` as an association list in insertion order -/

/-- `Map.get`: value of the (unique) entry with the key. -/
def mapGet {β : Type} : List (String × β) → String → Option β
  | [], _ => none
  | e :: rest, k => if e.1 = k then some e.2 else mapGet rest k

/-- `Map.has`. -/
def mapHas {β : Type} : List (String × β) → String → Bool
  | [], _ => false
  | e :: rest, k => e.1 = k || mapHas rest k

/-- `Map.set`: replace in place when the key exists (JS keeps the original
insertion position), otherwise append. -/
def mapSet {β : Type} : List (String × β) → String → β → List (String × β)
  | [], k, v => [(k, v)]
  | e :: rest, k, v => if e.1 = k then (k, v) :: rest else e :: mapSet rest k v

/-- `Map.delete` (a JS map holds at most one entry per key). -/
def mapDelete {β : Type} : List (String × β) → String → List (String × β)
  | [], _ => []
  | e :: rest, k => if e.1 = k then rest else e :: mapDelete rest k

/-- Keys of the map, in iteration (= insertion) order. -/
def mapKeys {β : Type} (m : List (String × β)) : List String :=
  m.map (·.1)

/-! ## Cache (`MemoryCache`, from the cache module)

`Date.now()` is passed explicitly as `now`; the periodic sweep interval is a
separate entry point (`cleanupSweep`). -/

namespace Cache

inductive EvictionPolicy
  | lru
  | lfu
  | fifo
deriving DecidableEq, Repr

structure CacheEntry (T : Type) where
  value : T
  expiresAt : Int
  createdAt : Int
  hits : Nat
deriving Repr, DecidableEq

structure MemoryCache (T : Type) where
  cache : List (String × CacheEntry T)
  statsHits : Nat
  statsMisses : Nat
  defaultExpireMs : Int
  maxSize : Nat
  evictionPolicy : EvictionPolicy
deriving Repr, DecidableEq

/-- `new MemoryCache(defaultExpireMs, maxSize, evictionPolicy)`. -/
def MemoryCache.mk' {T : Type} (defaultExpireMs : Int := 3600000)
    (maxSize : Nat := 1000) (policy : EvictionPolicy := .lru) :
    MemoryCache T :=
  { cache := [], statsHits := 0, statsMisses := 0
    defaultExpireMs := defaultExpireMs, maxSize := maxSize
    evictionPolicy := policy }

/-- One iteration of the LRU selection loop. -/
def lruStep {T : Type} (acc : Int × Option String)
    (e : String × CacheEntry T) : Int × Option String :=
  if e.2.expiresAt < acc.1 then (e.2.expiresAt, some e.1) else acc

/-- The LRU branch of `evict`: `oldestTime` starts at `Date.now()` and an
entry is selected only when its `expiresAt` is strictly below the best so
far (so only already-expired entries qualify). -/
def selectLru {T : Type} (entries : List (String × CacheEntry T))
    (now : Int) : Option String :=
  (entries.foldl lruStep (now, none)).2

/-- One iteration of the LFU selection loop; `none` models the initial
`Infinity` bound. -/
def lfuStep {T : Type} (acc : Option Nat × Option String)
    (e : String × CacheEntry T) : Option Nat × Option String :=
  match acc.1 with
  | none => (some e.2.hits, some e.1)
  | some best =>
    if e.2.hits < best then (some e.2.hits, some e.1) else acc

/-- The LFU branch: `lowestHits` starts at `Infinity`. -/
def selectLfu {T : Type} (entries : List (String × CacheEntry T)) :
    Option String :=
  (entries.foldl lfuStep (none, none)).2

/-- One iteration of the FIFO selection loop. -/
def fifoStep {T : Type} (acc : Int × Option String)
    (e : String × CacheEntry T) : Int × Option String :=
  if e.2.createdAt < acc.1 then (e.2.createdAt, some e.1) else acc

/-- The FIFO branch: `oldestCreated` starts at `Date.now()`. -/
def selectFifo {T : Type} (entries : List (String × CacheEntry T))
    (now : Int) : Option String :=
  (entries.foldl fifoStep (now, none)).2

/-- `MemoryCache.evict`.  Mirrors the JS truthiness test
`if (keyToEvict)`: a selected empty-string key is not deleted. -/
def MemoryCache.evict {T : Type} (c : MemoryCache T) (now : Int) :
    MemoryCache T :=
  if c.cache.isEmpty then c
  else
    let keyToEvict : Option String :=
      match c.evictionPolicy with
      | .lru => selectLru c.cache now
      | .lfu => selectLfu c.cache
      | .fifo => selectFifo c.cache now
    match keyToEvict with
    | some k => if k = "" then c else { c with cache := mapDelete c.cache k }
    | none => c

/-- `MemoryCache.set`. -/
def MemoryCache.set {T : Type} (c : MemoryCache T) (key : String) (value : T)
    (now : Int) (expireMs : Option Int := none) : MemoryCache T :=
  let expire := expireMs.getD c.defaultExpireMs
  let c :=
    if c.cache.length ≥ c.maxSize ∧ ¬ mapHas c.cache key then c.evict now
    else c
  { c with
    cache := mapSet c.cache key
      { value := value, expiresAt := now + expire, createdAt := now
        hits := 0 } }

/-- `MemoryCache.get`: expired entries are deleted lazily and count as a
miss; a hit bumps the entry's counter. -/
def MemoryCache.get {T : Type} (c : MemoryCache T) (key : String)
    (now : Int) : Option T × MemoryCache T :=
  match mapGet c.cache key with
  | none => (none, { c with statsMisses := c.statsMisses + 1 })
  | some entry =>
    if entry.expiresAt < now then
      (none, { c with cache := mapDelete c.cache key
                      statsMisses := c.statsMisses + 1 })
    else
      (some entry.value,
        { c with
          cache := mapSet c.cache key { entry with hits := entry.hits + 1 }
          statsHits := c.statsHits + 1 })

/-- `MemoryCache.has`. -/
def MemoryCache.hasKey {T : Type} (c : MemoryCache T) (key : String)
    (now : Int) : Bool × MemoryCache T :=
  match mapGet c.cache key with
  | none => (false, c)
  | some entry =>
    if entry.expiresAt < now then
      (false, { c with cache := mapDelete c.cache key })
    else (true, c)

/-- The periodic cleanup body: delete every expired entry. -/
def MemoryCache.cleanupSweep {T : Type} (c : MemoryCache T) (now : Int) :
    MemoryCache T :=
  { c with cache := c.cache.filter (fun e => ¬ e.2.expiresAt < now) }

end Cache

/-! ## JavaScript string primitives -/

/-- JS whitespace (the ASCII part of `\s`). -/
def isJsSpace (c : Char) : Bool :=
  c = ' ' || c = '\t' || c = '\n' || c = '\r' ||
  c = Char.ofNat 11 || c = Char.ofNat 12

/-- `String.prototype.trim` on a character list. -/
def jsTrimList (cs : List Char) : List Char :=
  ((cs.dropWhile isJsSpace).reverse.dropWhile isJsSpace).reverse

/-- `String.prototype.trim`. -/
def jsTrim (s : String) : String :=
  ⟨jsTrimList s.data⟩

/-- `String.prototype.toLowerCase` (ASCII case mapping suffices for every
string this development touches). -/
def jsToLower (s : String) : String :=
  ⟨s.data.map Char.toLower⟩

/-- `String.prototype.substring(0, n)`. -/
def jsSubstring0 (s : String) (n : Nat) : String :=
  ⟨s.data.take n⟩

/-- `String.prototype.includes` on lists. -/
def listIncludes : List Char → List Char → Bool
  | l, sub =>
    if sub.isPrefixOf l then true
    else match l with
      | [] => false
      | _ :: rest => listIncludes rest sub

/-- `String.prototype.includes`. -/
def jsIncludes (s sub : String) : Bool :=
  listIncludes s.data sub.data

/-- Split a list at the first occurrence of a separator, when there is
one (used for the lazy `([\s\S]*?)` group of the frontmatter pattern). -/
def splitFirst : List Char → List Char → Option (List Char × List Char)
  | l, sep =>
    if sep.isPrefixOf l then some ([], l.drop sep.length)
    else match l with
      | [] => none
      | c :: rest => (splitFirst rest sep).map (fun p => (c :: p.1, p.2))

/-- `String.prototype.split('\n')` (literal separator, as used on the
frontmatter block). -/
def splitLines (cs : List Char) : List (List Char) :=
  match cs with
  | [] => [[]]
  | c :: rest =>
    let groups := splitLines rest
    if c = '\n' then [] :: groups
    else match groups with
      | [] => [[c]]
      | g :: gs => (c :: g) :: gs

/-- Splitting on `/\s+/` and dropping empties: the word counter used by
`calculateReadingTime`, `calculateStats` and `getStats`. -/
def countWordsList (cs : List Char) : Nat :=
  ((cs.splitOnP isJsSpace).filter (fun w => ¬ w.isEmpty)).length

def countWords (s : String) : Nat :=
  countWordsList s.data

/-! ## JavaScript values and dates

Frontmatter values and plugin results live in a dynamic-value type.
`Date` objects carry their epoch milliseconds and calendar year (`none`
models an Invalid Date). -/

structure DateVal where
  ms : Int
  year : Int
deriving Repr, DecidableEq

inductive JSValue where
  | null
  | bool (b : Bool)
  | num (n : Int)
  | decimal (raw : String)
  | str (s : String)
  | date (d : Option DateVal)
  | arr (elems : List JSValue)
  | obj (fields : List (String × JSValue))
deriving Repr, Inhabited

/-- JS truthiness. `Date` objects are objects, hence truthy. -/
def jsTruthy : JSValue → Bool
  | .null => false
  | .bool b => b
  | .num n => n ≠ 0
  | .decimal _ => true
  | .str s => s ≠ ""
  | .date _ => true
  | .arr _ => true
  | .obj _ => true

/-- `String(v)` for the value shapes that can reach it here (array and
object renderings are simplified; no verified property inspects them). -/
def jsToString : JSValue → String
  | .null => "null"
  | .bool b => if b then "true" else "false"
  | .num n => toString n
  | .decimal raw => raw
  | .str s => s
  | .date _ => "[Date]"
  | .arr _ => "[Array]"
  | .obj _ => "[object Object]"

/-- Days from the civil epoch 1970-01-01 (Howard Hinnant's algorithm). -/
def daysFromCivil (y : Int) (m d : Nat) : Int :=
  let y := if m ≤ 2 then y - 1 else y
  let era : Int := (if 0 ≤ y then y else y - 399) / 400
  let yoe : Int := y - era * 400
  let mp : Int := (Int.ofNat m + 9) % 12
  let doy : Int := (153 * mp + 2) / 5 + Int.ofNat d - 1
  let doe : Int := yoe * 365 + yoe / 4 - yoe / 100 + doy
  era * 146097 + doe - 719468

def daysInMonth (y : Int) (m : Nat) : Nat :=
  if m = 2 then
    if y % 4 = 0 ∧ (y % 100 ≠ 0 ∨ y % 400 = 0) then 29 else 28
  else if m = 4 ∨ m = 6 ∨ m = 9 ∨ m = 11 then 30
  else 31

def digitsToNat (cs : List Char) : Nat :=
  cs.foldl (fun acc c => acc * 10 + (c.toNat - 48)) 0

/-- Parse of a date-only ISO string `yyyy-mm-dd` as `new Date(s)` accepts
it (UTC midnight); every other string shape is modelled as an Invalid
Date — no verified property depends on richer datetime parsing. -/
def jsDateParseString (s : String) : Option DateVal :=
  match s.data with
  | [y1, y2, y3, y4, '-', m1, m2, '-', d1, d2] =>
    if [y1, y2, y3, y4, m1, m2, d1, d2].all Char.isDigit then
      let y : Int := Int.ofNat (digitsToNat [y1, y2, y3, y4])
      let m := digitsToNat [m1, m2]
      let d := digitsToNat [d1, d2]
      if 1 ≤ m ∧ m ≤ 12 ∧ 1 ≤ d ∧ d ≤ daysInMonth y m then
        some { ms := daysFromCivil y m d * 86400000, year := y }
      else none
    else none
  | _ => none

/-- Civil year of an epoch-milliseconds value (for `getFullYear` on dates
built from numbers). -/
def yearOfMs (ms : Int) : Int :=
  let days : Int := (if 0 ≤ ms then ms else ms - 86399999) / 86400000
  let z := days + 719468
  let era : Int := (if 0 ≤ z then z else z - 146096) / 146097
  let doe : Int := z - era * 146097
  let yoe : Int := (doe - doe / 1460 + doe / 36524 - doe / 146096) / 365
  let y : Int := yoe + era * 400
  let doy : Int := doe - (365 * yoe + yoe / 4 - yoe / 100)
  let mp : Int := (5 * doy + 2) / 153
  if mp < 10 then y else y + 1

/-- `new Date(v)` for the value shapes that can reach it. -/
def jsNewDate : JSValue → Option DateVal
  | .num n => some { ms := n, year := yearOfMs n }
  | .str s => jsDateParseString s
  | .date d => d
  | .bool b => some { ms := if b then 1 else 0, year := 1970 }
  | _ => none

/-! ## JSON.parse

A strict recursive-descent JSON parser, used by `parseValue` for bracketed
and braced frontmatter values.  Non-integral numbers are kept as their
source text (`JSValue.decimal`); no verified property inspects them. -/

def jsonSkipWs (cs : List Char) : List Char :=
  cs.dropWhile (fun c => c = ' ' || c = '\t' || c = '\n' || c = '\r')

def jsonParseHex (c : Char) : Option Nat :=
  if '0' ≤ c ∧ c ≤ '9' then some (c.toNat - 48)
  else if 'a' ≤ c ∧ c ≤ 'f' then some (c.toNat - 87)
  else if 'A' ≤ c ∧ c ≤ 'F' then some (c.toNat - 55)
  else none

/-- Body of a JSON string literal after the opening quote. -/
def jsonParseStringBody : List Char → Option (List Char × List Char)
  | [] => none
  | '"' :: rest => some ([], rest)
  | '\\' :: esc :: rest =>
    let simple : Option Char :=
      match esc with
      | '"' => some '"'
      | '\\' => some '\\'
      | '/' => some '/'
      | 'b' => some (Char.ofNat 8)
      | 'f' => some (Char.ofNat 12)
      | 'n' => some '\n'
      | 'r' => some '\r'
      | 't' => some '\t'
      | _ => none
    match simple with
    | some c => (jsonParseStringBody rest).map (fun p => (c :: p.1, p.2))
    | none =>
      match esc, rest with
      | 'u', h1 :: h2 :: h3 :: h4 :: rest' =>
        match jsonParseHex h1, jsonParseHex h2, jsonParseHex h3,
            jsonParseHex h4 with
        | some a, some b, some c, some d =>
          (jsonParseStringBody rest').map
            (fun p => (Char.ofNat (((a * 16 + b) * 16 + c) * 16 + d) :: p.1,
              p.2))
        | _, _, _, _ => none
      | _, _ => none
  | c :: rest =>
    if c.toNat < 32 then none
    else (jsonParseStringBody rest).map (fun p => (c :: p.1, p.2))

/-- Fractional part of a JSON number (none means a malformed `1.`). -/
def jsonParseFracPart (cs : List Char) : Option (List Char × List Char) :=
  match cs with
  | '.' :: r =>
    let ds := r.takeWhile Char.isDigit
    if ds.isEmpty then none
    else some ('.' :: ds, r.dropWhile Char.isDigit)
  | _ => some ([], cs)

/-- Exponent part of a JSON number (none means a malformed `1e`). -/
def jsonParseExpPart (cs : List Char) : Option (List Char × List Char) :=
  match cs with
  | e :: r =>
    if e = 'e' ∨ e = 'E' then
      let (sgn, r2) := match r with
        | s :: r2' => if s = '+' ∨ s = '-' then ([s], r2') else (([] : List Char), r)
        | [] => (([] : List Char), r)
      let ds := r2.takeWhile Char.isDigit
      if ds.isEmpty then none
      else some (e :: (sgn ++ ds), r2.dropWhile Char.isDigit)
    else some ([], cs)
  | [] => some ([], cs)

/-- JSON number: `-? (0 | [1-9][0-9]*) frac? exp?`.  Returns the value and
the remaining input. -/
def jsonParseNumber (cs : List Char) : Option (JSValue × List Char) :=
  let (neg, cs1) := match cs with
    | '-' :: rest => (true, rest)
    | _ => (false, cs)
  let intPart := cs1.takeWhile Char.isDigit
  let rest1 := cs1.dropWhile Char.isDigit
  if intPart.isEmpty then none
  else if intPart.length > 1 ∧ intPart.headD '0' = '0' then none
  else match jsonParseFracPart rest1 with
    | none => none
    | some (frac, rest2) =>
      match jsonParseExpPart rest2 with
      | none => none
      | some (expPart, rest3) =>
        if frac = [] ∧ expPart = [] then
          let n : Int := Int.ofNat (digitsToNat intPart)
          some (.num (if neg then -n else n), rest3)
        else
          some (.decimal ⟨(if neg then ['-'] else []) ++ intPart ++ frac ++
            expPart⟩, rest3)

mutual

/-- JSON value parser (fuelled; the fuel dominates the nesting depth). -/
def jsonParseValue : Nat → List Char → Option (JSValue × List Char)
  | 0, _ => none
  | fuel + 1, cs =>
    let cs := jsonSkipWs cs
    match cs with
    | 't' :: 'r' :: 'u' :: 'e' :: rest => some (.bool true, rest)
    | 'f' :: 'a' :: 'l' :: 's' :: 'e' :: rest => some (.bool false, rest)
    | 'n' :: 'u' :: 'l' :: 'l' :: rest => some (.null, rest)
    | '"' :: rest =>
      (jsonParseStringBody rest).map (fun p => (.str ⟨p.1⟩, p.2))
    | '[' :: rest =>
      let rest := jsonSkipWs rest
      match rest with
      | ']' :: rest' => some (.arr [], rest')
      | _ => jsonParseElems fuel rest []
    | '{' :: rest =>
      let rest := jsonSkipWs rest
      match rest with
      | '}' :: rest' => some (.obj [], rest')
      | _ => jsonParseMembers fuel rest []
    | _ => jsonParseNumber cs

/-- Comma-separated array elements, at least one of which follows. -/
def jsonParseElems : Nat → List Char → List JSValue →
    Option (JSValue × List Char)
  | 0, _, _ => none
  | fuel + 1, cs, acc =>
    match jsonParseValue fuel cs with
    | none => none
    | some (v, rest) =>
      let rest := jsonSkipWs rest
      match rest with
      | ',' :: rest' => jsonParseElems fuel rest' (acc ++ [v])
      | ']' :: rest' => some (.arr (acc ++ [v]), rest')
      | _ => none

/-- Comma-separated object members, at least one of which follows. -/
def jsonParseMembers : Nat → List Char → List (String × JSValue) →
    Option (JSValue × List Char)
  | 0, _, _ => none
  | fuel + 1, cs, acc =>
    let cs := jsonSkipWs cs
    match cs with
    | '"' :: rest =>
      match jsonParseStringBody rest with
      | none => none
      | some (key, rest1) =>
        let rest1 := jsonSkipWs rest1
        match rest1 with
        | ':' :: rest2 =>
          match jsonParseValue fuel rest2 with
          | none => none
          | some (v, rest3) =>
            let rest3 := jsonSkipWs rest3
            match rest3 with
            | ',' :: rest4 => jsonParseMembers fuel rest4 (acc ++ [(⟨key⟩, v)])
            | '}' :: rest4 => some (.obj (acc ++ [(⟨key⟩, v)]), rest4)
            | _ => none
        | _ => none
    | _ => none

end

/-- `JSON.parse`: a parse succeeds only when the whole input is consumed.
The fuel `s.length + 1` dominates any possible nesting depth. -/
def jsonParse (s : String) : Option JSValue :=
  match jsonParseValue (s.length + 1) s.data with
  | some (v, rest) => if jsonSkipWs rest = [] then some v else none
  | none => none

/-! ## `utils.ts`: frontmatter parsing and helpers -/

/-- Test for `/^\d{4}-\d{2}-\d{2}/`. -/
def isDatePrefix : List Char → Bool
  | y1 :: y2 :: y3 :: y4 :: '-' :: m1 :: m2 :: '-' :: d1 :: d2 :: _ =>
    [y1, y2, y3, y4, m1, m2, d1, d2].all Char.isDigit
  | _ => false

/-- `parseValue`: auto-typing of a frontmatter scalar.  Bracketed and
braced values go through `JSON.parse` and fall back to the raw string when
that parse fails. -/
def parseValue (value : String) : JSValue :=
  if value = "" then .null
  else if value = "true" then .bool true
  else if value = "false" then .bool false
  else if value.data.all Char.isDigit then
    .num (Int.ofNat (digitsToNat value.data))
  else if isDatePrefix value.data then .date (jsDateParseString value)
  else if value.data.headD ' ' = '[' ∧ value.data.getLastD ' ' = ']' then
    (jsonParse value).getD (.str value)
  else if value.data.headD ' ' = Char.ofNat 123 ∧
      value.data.getLastD ' ' = Char.ofNat 125 then
    (jsonParse value).getD (.str value)
  else .str value

/-- Match of `/^(\w+)\s*:\s*(.*)$/` against one line: the key is a maximal
nonempty run of word characters, followed by optional whitespace, a colon
and optional whitespace; the value is the remainder of the line. -/
def lineKeyValue (line : List Char) : Option (List Char × List Char) :=
  let key := line.takeWhile (fun c => c.isAlphanum || c = '_')
  if key.isEmpty then none
  else
    match (line.dropWhile (fun c => c.isAlphanum || c = '_')).dropWhile
        isJsSpace with
    | ':' :: r2 => some (key, r2.dropWhile isJsSpace)
    | _ => none

/-- `parseFrontmatterYAML`: blank lines and unmatched lines are skipped,
and so are matched lines whose value capture is empty (`if (key && value)`);
later assignments to the same key overwrite in place. -/
def parseFrontmatterYAML (content : String) : List (String × JSValue) :=
  (splitLines content.data).foldl
    (fun data line =>
      if line.all isJsSpace then data
      else match lineKeyValue line with
        | none => data
        | some (key, value) =>
          if value.isEmpty then data
          else mapSet data ⟨jsTrimList key⟩ (parseValue ⟨jsTrimList value⟩))
    []

/-- The match of `/^---\n([\s\S]*?)\n---\n([\s\S]*)$/`: the lazy first
group ends at the first occurrence of `\n---\n`. -/
def frontmatterMatch (cs : List Char) : Option (List Char × List Char) :=
  if ("---\n".data).isPrefixOf cs then
    splitFirst (cs.drop 4) ("\n---\n".data)
  else none

/-- `parseFrontmatter`.  (The embedded YAML parser cannot throw, so the
`catch` branch of the source is dead here.) -/
def parseFrontmatter (content : String) :
    List (String × JSValue) × String :=
  if jsTrim content = "" then ([], "")
  else match frontmatterMatch content.data with
    | none => ([], content)
    | some (fm, body) => (parseFrontmatterYAML ⟨fm⟩, jsTrim ⟨body⟩)

/-- `calculateReadingTime` with its default 200 words per minute:
`Math.max(1, Math.ceil(words / wordsPerMinute))`. -/
def calculateReadingTime (content : String) (wordsPerMinute : Nat := 200) :
    Nat :=
  let words := countWords content
  max 1 ((words + wordsPerMinute - 1) / wordsPerMinute)

/-- Replace of `/^#+\s+/gm` by the empty string (first step of
`extractSummary`); the boolean tracks whether the scan position is at a
line start.  The fuel dominates the input length, and every step consumes
at least one character. -/
def stripHeadings : Nat → Bool → List Char → List Char
  | 0, _, l => l
  | _ + 1, _, [] => []
  | fuel + 1, atStart, c :: rest =>
    if atStart ∧ c = '#' then
      let after := rest.dropWhile (fun x => x = '#')
      let ws := after.takeWhile isJsSpace
      if ws.isEmpty then c :: stripHeadings fuel false rest
      else stripHeadings fuel (ws.getLast? = some '\n')
        (after.dropWhile isJsSpace)
    else c :: stripHeadings fuel (c = '\n') rest

/-- Leftmost match of `/\[([^\]]+)\]\([^\)]+\)/` at the head of the input:
consumed length and the `$1` replacement. -/
def linkMatch : List Char → Option (Nat × List Char)
  | '[' :: rest =>
    let t := rest.takeWhile (fun c => c ≠ ']')
    match t, rest.dropWhile (fun c => c ≠ ']') with
    | _ :: _, ']' :: '(' :: r2 =>
      let u := r2.takeWhile (fun c => c ≠ ')')
      match u, r2.dropWhile (fun c => c ≠ ')') with
      | _ :: _, ')' :: _ => some (1 + t.length + 2 + u.length + 1, t)
      | _, _ => none
    | _, _ => none
  | _ => none

/-- Leftmost match of `/\*\*([^\*]+)\*\*/` at the head of the input. -/
def boldMatch : List Char → Option (Nat × List Char)
  | '*' :: '*' :: rest =>
    let t := rest.takeWhile (fun c => c ≠ '*')
    match t, rest.dropWhile (fun c => c ≠ '*') with
    | _ :: _, '*' :: '*' :: _ => some (4 + t.length, t)
    | _, _ => none
  | _ => none

/-- Leftmost match of the inline-code pattern at the head of the input. -/
def codeMatch (l : List Char) : Option (Nat × List Char) :=
  match l with
  | c0 :: rest =>
    if c0 = Char.ofNat 96 then
      let t := rest.takeWhile (fun c => c ≠ Char.ofNat 96)
      match t, rest.dropWhile (fun c => c ≠ Char.ofNat 96) with
      | _ :: _, c1 :: _ =>
        if c1 = Char.ofNat 96 then some (2 + t.length, t) else none
      | _, _ => none
    else none
  | [] => none

/-- Leftmost match of the lazy fenced-code-block pattern at the head of
the input: three backticks, the shortest run up to the next three. -/
def fenceMatch (l : List Char) : Option (Nat × List Char) :=
  let bt := Char.ofNat 96
  match l with
  | c0 :: c1 :: c2 :: rest =>
    if c0 = bt ∧ c1 = bt ∧ c2 = bt then
      match splitFirst rest [bt, bt, bt] with
      | some (before, _) => some (3 + before.length + 3, [])
      | none => none
    else none
  | _ => none

/-- Global regex replace: repeatedly take the leftmost match (every
matcher above consumes at least one character) or emit one character and
advance.  The fuel dominates the input length. -/
def replaceScan (f : List Char → Option (Nat × List Char)) :
    Nat → List Char → List Char
  | 0, l => l
  | _ + 1, [] => []
  | fuel + 1, l@(c :: rest) =>
    match f l with
    | some (n, rep) => rep ++ replaceScan f fuel (l.drop n)
    | none => c :: replaceScan f fuel rest

/-- `extractSummary` with its default length 150: strip headings, links,
bold, inline code and fenced blocks (in source order), trim, cut to
`length`, trim again, and append an ellipsis unless the cut already ends
in terminal punctuation. -/
def extractSummary (content : String) (length : Nat := 150) : String :=
  let t0 := stripHeadings (content.data.length + 1) true content.data
  let t1 := replaceScan linkMatch (t0.length + 1) t0
  let t2 := replaceScan boldMatch (t1.length + 1) t1
  let t3 := replaceScan codeMatch (t2.length + 1) t2
  let t4 := replaceScan fenceMatch (t3.length + 1) t3
  let text := jsTrimList t4
  let summary := jsTrimList (text.take length)
  match summary.getLast? with
  | some '.' | some '!' | some '?' => ⟨summary⟩
  | _ => ⟨summary ++ ("...".data)⟩

/-! ## Articles (`types.ts` record shape) -/

structure Article where
  id : String
  title : String
  description : String
  content : String
  date : Option DateVal
  updated : Option (Option DateVal) := none
  author : Option String := none
  tags : List String := []
  categories : List String := []
  image : Option String := none
  draft : Bool := false
  keywords : Option (List String) := none
  meta : Option JSValue := none
  raw : String := ""
  readingTime : Nat := 1
deriving Inhabited

inductive SortOrder
  | asc
  | desc
deriving DecidableEq, Repr

/-- The `sortArticles` comparator: date difference in epoch ms, `0` when
either date is invalid. -/
def sortCmp (ord : SortOrder) (a b : Article) : Int :=
  match a.date, b.date with
  | some da, some db => if ord = .asc then da.ms - db.ms else db.ms - da.ms
  | _, _ => 0

/-- `sortArticles`: a stable sort by the comparator (JS array sort is
stable). -/
def sortArticles (l : List Article) (ord : SortOrder := .desc) :
    List Article :=
  l.insertionSort (fun a b => sortCmp ord a b ≤ 0)

structure UtilFilter where
  tag : Option String := none
  category : Option String := none
  year : Option Int := none
deriving Repr

/-- The predicate of `filterArticles`; the JS truthiness guards
(`if (filter.tag)` …) let an empty string or a zero year match
everything. -/
def passesFilter (f : UtilFilter) (a : Article) : Bool :=
  (match f.tag with
   | some t => t = "" || a.tags.contains t
   | none => true) &&
  (match f.category with
   | some c => c = "" || a.categories.contains c
   | none => true) &&
  (match f.year with
   | some y => y = 0 ||
      (match a.date with
       | some d => d.year = y
       | none => false)
   | none => true)

/-- `filterArticles`. -/
def filterArticles (l : List Article) (filter : Option UtilFilter) :
    List Article :=
  match filter with
  | none => l
  | some f => l.filter (passesFilter f)

/-! ## `ArticleManager` -/

structure ArticleManager where
  articles : List (String × Article) := []
  includeDrafts : Bool := false
  defaultAuthor : Option String := none
  maxArticles : Nat := 10000
  disposed : Bool := false

namespace ArticleManager

def checkDisposed (m : ArticleManager) : Except String Unit :=
  if m.disposed then .error "ArticleManager has been disposed" else .ok ()

/-- `addArticle`.  Ids are strings by construction here, so the TypeError
branch is unreachable, and the over-capacity warning does not change
state. -/
def addArticle (m : ArticleManager) (a : Article) :
    Except String ArticleManager := do
  m.checkDisposed
  pure { m with articles := mapSet m.articles a.id a }

/-- `createArticleFromMarkdown`.  `now` stands for the `new Date()` taken
when the frontmatter has no (truthy) `date` key.  This method never checks
the `disposed` flag in the source. -/
def createArticleFromMarkdown (m : ArticleManager) (id content : String)
    (now : DateVal) : Except String Article := do
  if jsTrim id = "" then
    throw "TypeError: id must be a non-empty string"
  let (data, body) := parseFrontmatter content
  let title := jsTrim (jsToString
    (match mapGet data "title" with
     | some v => if jsTruthy v then v else .str id
     | none => .str id))
  let description := jsTrim (jsToString
    (match mapGet data "description" with
     | some v => if jsTruthy v then v else .str (extractSummary body)
     | none => .str (extractSummary body)))
  let date : Option DateVal :=
    match mapGet data "date" with
    | some v => if jsTruthy v then jsNewDate v else some now
    | none => some now
  let author0 : Option String :=
    match mapGet data "author" with
    | some v => if jsTruthy v then some (jsTrim (jsToString v))
        else m.defaultAuthor
    | none => m.defaultAuthor
  let tags :=
    match mapGet data "tags" with
    | some (.arr xs) =>
      (xs.map (fun t => jsTrim (jsToString t))).filter (fun t => t ≠ "")
    | _ => []
  let categories :=
    match mapGet data "categories" with
    | some (.arr xs) =>
      (xs.map (fun c => jsTrim (jsToString c))).filter (fun c => c ≠ "")
    | _ => []
  let keywords : Option (List String) :=
    match mapGet data "keywords" with
    | some (.arr xs) =>
      some ((xs.map (fun k => jsTrim (jsToString k))).filter
        (fun k => k ≠ ""))
    | _ => none
  pure
    { id := id
      title := if title ≠ "" then title else id
      description := description
      content := body
      date := date
      updated :=
        match mapGet data "updated" with
        | some v => if jsTruthy v then some (jsNewDate v) else none
        | none => none
      author :=
        match author0 with
        | some s => if s ≠ "" then some s else none
        | none => none
      tags := tags
      categories := categories
      image :=
        match mapGet data "image" with
        | some v => if jsTruthy v then some (jsTrim (jsToString v)) else none
        | none => none
      draft :=
        match mapGet data "draft" with
        | some (.bool true) => true
        | _ => false
      keywords := keywords
      meta :=
        match mapGet data "meta" with
        | some v => if jsTruthy v then some v else none
        | none => none
      raw := content
      readingTime := calculateReadingTime body }

/-- The draft-filtered view shared by the read operations. -/
def view (m : ArticleManager) : List Article :=
  let articles := m.articles.map (·.2)
  if m.includeDrafts then articles
  else articles.filter (fun a => ¬ a.draft)

/-- `getArticles`. -/
def getArticles (m : ArticleManager) : Except String (List Article) := do
  m.checkDisposed
  pure m.view

/-- `getArticleById`: a raw map lookup (no draft filtering). -/
def getArticleById (m : ArticleManager) (id : String) :
    Except String (Option Article) := do
  m.checkDisposed
  pure (mapGet m.articles id)

structure ArticleFilter where
  tag : Option String := none
  category : Option String := none
  year : Option Int := none
  search : Option String := none
deriving Repr

structure ListOptions where
  sort : Option SortOrder := none
  page : Option Int := none
  pageSize : Option Int := none
deriving Repr

structure ArticleList where
  items : List Article
  total : Nat
  filtered : Nat

/-- The filter-and-search stage of `getArticleList`. -/
def filteredView (m : ArticleManager) (filter : Option ArticleFilter) :
    List Article :=
  let articles0 := m.view
  match filter with
  | none => articles0
  | some f =>
    let base := filterArticles articles0
      (some { tag := f.tag, category := f.category, year := f.year })
    match f.search with
    | some s =>
      if s ≠ "" then
        let query := jsToLower s
        base.filter (fun a =>
          jsIncludes (jsToLower a.title) query ||
          jsIncludes (jsToLower a.description) query ||
          jsIncludes (jsToLower a.content) query)
      else base
    | none => base

/-- The pagination stage of `getArticleList`: active only when both
`page` and `pageSize` are truthy, each then clamped to at least 1. -/
def paginate (options : Option ListOptions) (sorted : List Article) :
    List Article :=
  match options with
  | some o =>
    match o.page, o.pageSize with
    | some p, some ps =>
      if p ≠ 0 ∧ ps ≠ 0 then
        let page := max 1 p
        let pageSize := max 1 ps
        let start := ((page - 1) * pageSize).toNat
        (sorted.drop start).take pageSize.toNat
      else sorted
    | _, _ => sorted
  | none => sorted

/-- The body of `getArticleList` after the disposed check. -/
def getArticleListCore (m : ArticleManager) (filter : Option ArticleFilter)
    (options : Option ListOptions) : ArticleList :=
  let articles1 := m.filteredView filter
  let total := articles1.length
  let sorted := sortArticles articles1 ((options.bind (·.sort)).getD .desc)
  let paged := paginate options sorted
  { items := paged, total := total, filtered := paged.length }

/-- `getArticleList`: filter, search, sort, then paginate only when both
`page` and `pageSize` are truthy. -/
def getArticleList (m : ArticleManager) (filter : Option ArticleFilter)
    (options : Option ListOptions) : Except String ArticleList := do
  m.checkDisposed
  pure (m.getArticleListCore filter options)

/-- The relatedness score of `getRelatedArticles`: 10 per shared tag, 15
per shared category, 5 for a shared (truthy) author. -/
def relatedScore (article candidate : Article) : Nat :=
  (article.tags.foldl
    (fun s tag => if candidate.tags.contains tag then s + 10 else s) 0) +
  (article.categories.foldl
    (fun s cat => if candidate.categories.contains cat then s + 15 else s)
    0) +
  (match article.author with
   | some au => if au ≠ "" ∧ candidate.author = some au then 5 else 0
   | none => 0)

/-- The body of `getRelatedArticles` after the disposed check. -/
def getRelatedArticlesCore (m : ArticleManager) (articleId : String)
    (limit : Int) : List Article :=
  match mapGet m.articles articleId with
  | none => []
  | some article =>
    let lim := (max 1 (min 100 limit)).toNat
    let candidates := m.view.filter (fun a => a.id ≠ articleId)
    let scored := candidates.map (fun c => (c, relatedScore article c))
    (((scored.filter (fun s => s.2 > 0)).insertionSort
      (fun x y => y.2 ≤ x.2)).take lim).map (·.1)

/-- `getRelatedArticles`: candidates come from the draft-filtered view,
only positive scores survive, sorted by descending score (stable), cut to
the clamped limit. -/
def getRelatedArticles (m : ArticleManager) (articleId : String)
    (limit : Int := 3) : Except String (List Article) := do
  m.checkDisposed
  pure (m.getRelatedArticlesCore articleId limit)

/-- `Map`-tally helper shared by the two stats methods. -/
def tallyInto (stats : List (String × Nat)) (keys : List String) :
    List (String × Nat) :=
  keys.foldl (fun st t => mapSet st t ((mapGet st t).getD 0 + 1)) stats

/-- `getTagStats`. -/
def getTagStats (m : ArticleManager) :
    Except String (List (String × Nat)) := do
  m.checkDisposed
  pure (m.view.foldl (fun st a => tallyInto st a.tags) [])

/-- `getCategoryStats`. -/
def getCategoryStats (m : ArticleManager) :
    Except String (List (String × Nat)) := do
  m.checkDisposed
  pure (m.view.foldl (fun st a => tallyInto st a.categories) [])

structure BlogStats where
  totalArticles : Nat
  totalTags : Nat
  totalCategories : Nat
  totalWords : Nat
  averageReadingTime : Nat
deriving Repr, DecidableEq

/-- `Math.round(num / den)` for natural inputs (round half up). -/
def jsRoundDiv (num den : Nat) : Nat :=
  (2 * num + den) / (2 * den)

/-- `getStats`. -/
def getStats (m : ArticleManager) : Except String BlogStats := do
  m.checkDisposed
  let articles := m.view
  let totalWords := (articles.map (fun a => countWords a.content)).sum
  let totalReadingTime := (articles.map (·.readingTime)).sum
  let tags ← m.getTagStats
  let categories ← m.getCategoryStats
  pure
    { totalArticles := articles.length
      totalTags := tags.length
      totalCategories := categories.length
      totalWords := totalWords
      averageReadingTime :=
        if articles.length > 0 then
          jsRoundDiv totalReadingTime articles.length
        else 0 }

/-- `clear`. -/
def clear (m : ArticleManager) : Except String ArticleManager := do
  m.checkDisposed
  pure { m with articles := [] }

/-- `dispose` calls `clear` (which itself checks the flag) and then sets
the flag. -/
def dispose (m : ArticleManager) : Except String ArticleManager := do
  let m' ← m.clear
  pure { m' with disposed := true }

end ArticleManager

/-! ## `SearchEngine` -/

/-- An inverted-index posting (`SearchIndex` in `types.ts`). -/
structure SearchIndex where
  id : String
  articleId : String
  content : String
  excerpt : String
  weight : Nat
deriving Repr, DecidableEq

/-- A search result; the `highlights` array is not modelled (no verified
property concerns the highlight markup). -/
structure SearchResult where
  article : Article
  score : Nat

/-- The engine state together with its configuration.  The constructor
validations (`maxResults ≥ 1` and so on, for explicitly supplied values)
are recorded as hypotheses where a property needs them. -/
structure SearchEngine where
  index : List (String × List SearchIndex) := []
  articles : List (String × Article) := []
  minSearchLength : Nat := 2
  caseSensitive : Bool := false
  maxResults : Nat := 20
  maxQueryLength : Nat := 500
  maxIndexSize : Nat := 100000
  disposed : Bool := false

/-- `x || d` on a numeric config field (0 is falsy). -/
def jsOrNat (n d : Nat) : Nat := if n = 0 then d else n

/-- ASCII characters of `\p{P}` (the punctuation class used by
`tokenize`; all strings in this development are ASCII). -/
def isPunct (c : Char) : Bool :=
  c = '!' || c = Char.ofNat 34 || c = '#' || c = '%' || c = '&' ||
  c = Char.ofNat 39 || c = '(' || c = ')' || c = '*' || c = ',' ||
  c = '-' || c = '.' || c = '/' || c = ':' || c = ';' || c = '?' ||
  c = '@' || c = '[' || c = Char.ofNat 92 || c = ']' || c = '_' ||
  c = Char.ofNat 123 || c = Char.ofNat 125

/-- `[...new Set(words)]`: deduplicate keeping first occurrences
(`seen` accumulates the elements already emitted). -/
def dedupFirstAux {α : Type} [DecidableEq α] (seen : List α) :
    List α → List α
  | [] => []
  | x :: xs =>
    if x ∈ seen then dedupFirstAux seen xs
    else x :: dedupFirstAux (x :: seen) xs

def dedupFirst {α : Type} [DecidableEq α] (l : List α) : List α :=
  dedupFirstAux [] l

namespace SearchEngine

def checkDisposed (se : SearchEngine) : Except String Unit :=
  if se.disposed then .error "SearchEngine has been disposed" else .ok ()

/-- `validateString`: truncate over-long strings.  The comparison uses
`maxQueryLength || 500` but the truncation uses the raw field, exactly as
the source does. -/
def validateString (se : SearchEngine) (s : String) : String :=
  if s.length > jsOrNat se.maxQueryLength 500 then
    jsSubstring0 s se.maxQueryLength
  else s

/-- `tokenize`: lower-case (unless case-sensitive), split on whitespace
and punctuation, keep tokens of length 1–99, keep the first 50, then
deduplicate. -/
def tokenize (se : SearchEngine) (text : String) : List String :=
  if text = "" then []
  else
    let query := if se.caseSensitive then text else jsToLower text
    let words := (query.data.splitOnP
      (fun c => isJsSpace c || isPunct c)).map (fun l => (⟨l⟩ : String))
    dedupFirst ((words.filter
      (fun w => 0 < w.length ∧ w.length < 100)).take 50)

/-- In-place weight accumulation on the first (unique) posting of the
article, capped at 1000. -/
def updateFirstPosting : List SearchIndex → String → Nat → List SearchIndex
  | [], _, _ => []
  | p :: rest, aid, w =>
    if p.articleId = aid then
      { p with weight := min (p.weight + w) 1000 } :: rest
    else p :: updateFirstPosting rest aid w

/-- One posting insertion/accumulation for a token occurrence. -/
def updatePostings (ps : List SearchIndex) (aid : String) (content : String)
    (word : String) (weight : Nat) : List SearchIndex :=
  if ps.any (fun i => i.articleId = aid) then
    updateFirstPosting ps aid weight
  else
    let posting : SearchIndex :=
      { id := aid ++ ":" ++ word, articleId := aid,
        content := jsSubstring0 content 200,
        excerpt := jsSubstring0 content 100, weight := weight }
    ps ++ [posting]

/-- The body of the per-token loop of `indexArticle`. -/
def indexInsert (idx : List (String × List SearchIndex)) (word : String)
    (aid : String) (content : String) (weight : Nat) :
    List (String × List SearchIndex) :=
  mapSet idx word
    (updatePostings ((mapGet idx word).getD []) aid content word weight)

/-- The weighted fields of `indexArticle`, in source order. -/
def indexItems (se : SearchEngine) (article : Article) :
    List (String × Nat) :=
  [(se.validateString article.title, 10),
   (se.validateString article.description, 5),
   (String.intercalate " " article.tags, 4),
   (String.intercalate " " article.categories, 4),
   (se.validateString article.content, 1)]

/-- `indexArticle`: throws on a falsy id, title or body; otherwise
tokenizes the five weighted fields and inserts or accumulates
postings. -/
def indexArticle (se : SearchEngine) (article : Article) :
    Except String SearchEngine :=
  if article.id = "" ∨ article.title = "" ∨ article.content = "" then
    .error "Invalid article: missing required fields"
  else
    .ok { se with
      index := (se.indexItems article).foldl
        (fun idx item =>
          if item.1 = "" then idx
          else (se.tokenize item.1).foldl
            (fun idx word => indexInsert idx word article.id item.1 item.2)
            idx)
        se.index }

/-- A raw element of the `indexArticles` input: anything that is not an
object with a string id is skipped. -/
inductive RawDoc
  | invalid
  | doc (a : Article)

/-- The indexing loop: invalid or throwing articles are skipped (a
throwing one is also not cached), and the loop breaks once the index has
grown past `maxIndexSize` terms. -/
def indexLoop (se : SearchEngine) : List RawDoc → SearchEngine
  | [] => se
  | .invalid :: rest => indexLoop se rest
  | .doc a :: rest =>
    match se.indexArticle a with
    | .error _ => indexLoop se rest
    | .ok se' =>
      let se'' := { se' with articles := mapSet se'.articles a.id a }
      if se''.index.length > jsOrNat se''.maxIndexSize 100000 then se''
      else indexLoop se'' rest

/-- `this.index.clear(); this.articles.clear()`. -/
def resetState (se : SearchEngine) : SearchEngine :=
  { se with index := [], articles := [] }

/-- `indexArticles`: clears the index and the article cache, then
repopulates both from scratch. -/
def indexArticles (se : SearchEngine) (docs : List RawDoc) :
    Except String SearchEngine := do
  se.checkDisposed
  pure (indexLoop se.resetState docs)

/-- `searchIndex`: exact postings (at most 100) followed by postings of at
most 50 strict prefix-extension terms (at most 50 postings each), in index
iteration order. -/
def prefixLoop (keyword : String) :
    List (String × List SearchIndex) → Nat → List SearchIndex
  | [], _ => []
  | (key, items) :: rest, cnt =>
    if cnt ≥ 50 then []
    else if keyword.data.isPrefixOf key.data ∧ key ≠ keyword then
      items.take 50 ++ prefixLoop keyword rest (cnt + 1)
    else prefixLoop keyword rest cnt

def searchIndex (se : SearchEngine) (keyword : String) :
    List SearchIndex :=
  if keyword = "" then []
  else
    (match mapGet se.index keyword with
     | some items => items.take 100
     | none => []) ++ prefixLoop keyword se.index 0

/-- The body of `search` after validation: per-document score
accumulation in first-seen order, result hydration from the article
cache, stable sort by descending score, cut to `max(1, maxResults ||
20)`. -/
def searchCore (se : SearchEngine) (validatedQuery : String) :
    List SearchResult :=
  let keywords := se.tokenize validatedQuery
  if keywords.isEmpty then []
  else
    let resultMap : List (String × Nat) := keywords.foldl
      (fun rm keyword =>
        (se.searchIndex keyword).foldl
          (fun rm item =>
            mapSet rm item.articleId
              ((mapGet rm item.articleId).getD 0 + item.weight))
          rm)
      []
    let results : List SearchResult := resultMap.filterMap
      (fun e => (mapGet se.articles e.1).map
        (fun article => { article := article, score := e.2 }))
    (results.insertionSort (fun x y => y.score ≤ x.score)).take
      (max 1 (jsOrNat se.maxResults 20))

/-- The query input: `search` accepts `unknown`. -/
inductive QueryInput
  | notString
  | str (s : String)

/-- `search`. -/
def search (se : SearchEngine) (q : QueryInput) :
    Except String (List SearchResult) := do
  se.checkDisposed
  pure (match q with
    | .notString => []
    | .str s =>
      if s.length < jsOrNat se.minSearchLength 2 then []
      else
        let validated := se.validateString s
        if validated = "" then []
        else se.searchCore validated)

/-- Invariant: at most one posting per (token, document) pair. -/
def postingsNodup (idx : List (String × List SearchIndex)) : Prop :=
  ∀ e ∈ idx, ((e.2.map (fun p => p.articleId)).Nodup)

/-- The posting weight recorded for a (token, document) pair. -/
def getWeight (idx : List (String × List SearchIndex)) (w aid : String) :
    Option Nat :=
  (((mapGet idx w).getD []).find? (fun p => p.articleId = aid)).map
    (fun p => p.weight)

/-- The sum of the weights of the (nonempty) fields of an article whose
tokenization contains the token. -/
def fieldWeightSum (se : SearchEngine) (article : Article) (w : String) :
    Nat :=
  (((se.indexItems article).filter
    (fun f => f.1 ≠ "" ∧ w ∈ se.tokenize f.1)).map (fun f => f.2)).sum

/-- One capped weight accumulation, as an operation on the optional
recorded weight. -/
def capAdd (acc : Option Nat) (wt : Nat) : Option Nat :=
  some (min (acc.getD 0 + wt) 1000)

/-- `clear`. -/
def clear (se : SearchEngine) : Except String SearchEngine := do
  se.checkDisposed
  pure { se with index := [], articles := [] }

/-- `getStats`. -/
def getStats (se : SearchEngine) : Except String (Nat × Nat × Nat) := do
  se.checkDisposed
  pure (se.index.length, se.articles.length,
    (se.index.map (fun e => e.2.length)).sum)

/-- `dispose` (via `clear`, which itself checks the flag). -/
def dispose (se : SearchEngine) : Except String SearchEngine := do
  let se' ← se.clear
  pure { se' with disposed := true }

end SearchEngine

/-- Sorting results by descending score is total. -/
instance : IsTotal SearchResult (fun x y => y.score ≤ x.score) :=
  ⟨fun a b => Nat.le_total b.score a.score⟩

/-- Sorting results by descending score is transitive. -/
instance : IsTrans SearchResult (fun x y => y.score ≤ x.score) :=
  ⟨fun _ _ _ h1 h2 => Nat.le_trans h2 h1⟩

/-! ## `PluginManager` -/

/-- A processor's returned JS value: an object (an article record, whose
id may be falsy) or anything else. -/
inductive ProcRet
  | obj (a : Article)
  | nonObj

/-- A processor invocation either settles with a value or fails (a throw,
or the timeout race winning). -/
abbrev ProcessorFn : Type := Article → Except Unit ProcRet

/-- A search extension settles with a value (`none` models `undefined`)
or fails. -/
abbrev SearchExtFn : Type :=
  String → List Article → Except Unit (Option JSValue)

/-- How a lifecycle hook ends: settles normally, throws (the thrown
error's message is rethrown by the manager), or fails to settle before
the deadline. -/
inductive HookEnd
  | ok
  | throws (msg : String)
  | timesOut
deriving DecidableEq, Repr

/-- A call the activation hook makes on its context before its end. -/
inductive CtxAction
  | registerProcessor (fn : ProcessorFn)
  | registerSearchExtension (fn : SearchExtFn)
  | getArticles
  | log

/-- The activation hook: the context calls it performs, then its end. -/
structure HookBehavior where
  actions : List CtxAction
  outcome : HookEnd

structure Plugin where
  name : String
  version : String
  description : Option String := none
  activate : HookBehavior
  deactivate : Option HookEnd := none

/-- The raw `unknown` handed to `registerPlugin`; `validatePlugin`'s
duck-typing rejects anything that is not an object with a string name, a
string version and a callable activate. -/
inductive RawPlugin
  | invalid
  | valid (p : Plugin)

structure PluginManager where
  plugins : List (String × Plugin) := []
  activePlugins : List String := []
  articleProcessors : List (String × ProcessorFn) := []
  searchExtensions : List (String × SearchExtFn) := []
  timeout : Nat := 10000
  maxProcessors : Nat := 100
  disposed : Bool := false

/-- `Set.add`: append when absent. -/
def setAdd (s : List String) (x : String) : List String :=
  if x ∈ s then s else s ++ [x]

namespace PluginManager

def checkDisposed (pm : PluginManager) : Except String Unit :=
  if pm.disposed then .error "PluginManager has been disposed" else .ok ()

/-- The body of `registerArticleProcessor` after the disposed check: the
over-cap warning returns without registering. -/
def registerArticleProcessorCore (pm : PluginManager) (pluginName : String)
    (fn : ProcessorFn) : PluginManager :=
  if pm.articleProcessors.length ≥ jsOrNat pm.maxProcessors 100 then pm
  else { pm with
    articleProcessors := pm.articleProcessors ++ [(pluginName, fn)] }

def registerArticleProcessor (pm : PluginManager) (pluginName : String)
    (fn : ProcessorFn) : Except String PluginManager := do
  pm.checkDisposed
  pure (pm.registerArticleProcessorCore pluginName fn)

/-- The body of `registerSearchExtension` after the disposed check. -/
def registerSearchExtensionCore (pm : PluginManager) (pluginName : String)
    (fn : SearchExtFn) : PluginManager :=
  if pm.searchExtensions.length ≥ jsOrNat pm.maxProcessors 100 then pm
  else { pm with
    searchExtensions := pm.searchExtensions ++ [(pluginName, fn)] }

def registerSearchExtension (pm : PluginManager) (pluginName : String)
    (fn : SearchExtFn) : Except String PluginManager := do
  pm.checkDisposed
  pure (pm.registerSearchExtensionCore pluginName fn)

/-- The context calls the activation hook performs before it ends (the
disposed flag is false throughout a registration). -/
def applyActions (pm : PluginManager) (pluginName : String)
    (actions : List CtxAction) : PluginManager :=
  actions.foldl
    (fun pm act =>
      match act with
      | .registerProcessor fn =>
        pm.registerArticleProcessorCore pluginName fn
      | .registerSearchExtension fn =>
        pm.registerSearchExtensionCore pluginName fn
      | .getArticles => pm
      | .log => pm)
    pm

/-- `registerPlugin`.  Returns the outcome together with the manager
state afterwards: a failed activation (throw or timeout) rejects, and the
plugin is added to neither map, but context registrations made before the
failure persist, exactly as in the source. -/
def registerPlugin (pm : PluginManager) (p : RawPlugin) :
    Except String Unit × PluginManager :=
  if pm.disposed then (.error "PluginManager has been disposed", pm)
  else match p with
  | .invalid => (.error "TypeError: Invalid plugin", pm)
  | .valid plugin =>
    if mapHas pm.plugins plugin.name then (.ok (), pm)
    else
      let pm' := pm.applyActions plugin.name plugin.activate.actions
      match plugin.activate.outcome with
      | .ok =>
        (.ok (), { pm' with
          plugins := mapSet pm'.plugins plugin.name plugin
          activePlugins := setAdd pm'.activePlugins plugin.name })
      | .throws msg => (.error msg, pm')
      | .timesOut =>
        (.error ("Operation timeout after " ++
          toString (jsOrNat pm.timeout 10000) ++ "ms"), pm')

/-- `unregisterPlugin`: a failing deactivation hook rejects before any
removal happens. -/
def unregisterPlugin (pm : PluginManager) (name : String) :
    Except String Unit × PluginManager :=
  if pm.disposed then (.error "PluginManager has been disposed", pm)
  else if jsTrim name = "" then
    (.error "TypeError: Plugin name must be a non-empty string", pm)
  else match mapGet pm.plugins name with
  | none => (.ok (), pm)
  | some plugin =>
    match plugin.deactivate with
    | some (.throws msg) => (.error msg, pm)
    | some .timesOut =>
      (.error ("Operation timeout after " ++
        toString (jsOrNat pm.timeout 10000) ++ "ms"), pm)
    | _ =>
      (.ok (), { pm with
        plugins := mapDelete pm.plugins name
        activePlugins := pm.activePlugins.filter (fun n => n ≠ name)
        articleProcessors :=
          pm.articleProcessors.filter (fun p => p.1 ≠ name)
        searchExtensions :=
          pm.searchExtensions.filter (fun p => p.1 ≠ name) })

/-- The processor chain fold of `processArticle`: a failing or invalid
result is skipped and the previous stage's document flows on. -/
def processArticleCore (procs : List (String × ProcessorFn))
    (article : Article) : Article :=
  procs.foldl
    (fun processed proc =>
      match proc.2 processed with
      | .error _ => processed
      | .ok (.obj a) => if a.id ≠ "" then a else processed
      | .ok .nonObj => processed)
    article

/-- `processArticle`. -/
def processArticle (pm : PluginManager) (article : Article) :
    Except String Article := do
  pm.checkDisposed
  pure (processArticleCore pm.articleProcessors article)

/-- A processor whose accepted results carry their input's id. -/
def preservesId (fn : ProcessorFn) : Prop :=
  ∀ x a, fn x = .ok (.obj a) → a.id ≠ "" → a.id = x.id

/-- `executeSearchExtensions`: failing extensions are skipped, `undefined`
results are not collected. -/
def executeSearchExtensions (pm : PluginManager) (query : String)
    (articles : List Article) : Except String (List JSValue) := do
  pm.checkDisposed
  pure (pm.searchExtensions.foldl
    (fun results ext =>
      match ext.2 query articles with
      | .error _ => results
      | .ok none => results
      | .ok (some v) => results ++ [v])
    [])

def getPlugins (pm : PluginManager) : Except String (List Plugin) := do
  pm.checkDisposed
  pure (pm.plugins.map (·.2))

def getActivePlugins (pm : PluginManager) : Except String (List String) := do
  pm.checkDisposed
  pure pm.activePlugins

def getPluginInfo (pm : PluginManager) (name : String) :
    Except String (Option Plugin) := do
  pm.checkDisposed
  pure (mapGet pm.plugins name)

def getProcessorStats (pm : PluginManager) :
    Except String (Nat × Nat) := do
  pm.checkDisposed
  pure (pm.articleProcessors.length, pm.searchExtensions.length)

/-- The unregister loop of `cleanup`: failures are logged and skipped. -/
def cleanupLoop (pm : PluginManager) (names : List String) :
    PluginManager :=
  names.foldl
    (fun pm name => (pm.unregisterPlugin name).2)
    pm

/-- `cleanup` (no disposed check in the source). -/
def cleanup (pm : PluginManager) : PluginManager :=
  let pm' := cleanupLoop pm pm.activePlugins
  { pm' with articleProcessors := [], searchExtensions := [] }

/-- `dispose`: returns silently when already disposed. -/
def dispose (pm : PluginManager) : PluginManager :=
  if pm.disposed then pm
  else { pm.cleanup with disposed := true }

end PluginManager

/-! ## Concrete fixtures used by the verification instances -/

def docA : Article :=
  { id := "a", title := "a", description := "", content := "c",
    date := some ⟨0, 1970⟩, readingTime := 1 }

def docB : Article :=
  { id := "b", title := "b", description := "", content := "c",
    date := some ⟨1, 1970⟩, readingTime := 1 }

def docC : Article :=
  { id := "c", title := "c", description := "", content := "c",
    date := some ⟨2, 1970⟩, readingTime := 1 }

def store3 : ArticleManager :=
  { articles := [("a", docA), ("b", docB), ("c", docC)] }

def store1 : ArticleManager := { articles := [("a", docA)] }

def docP : Article :=
  { id := "p", title := "p", description := "", content := "c",
    date := some ⟨0, 1970⟩, draft := false, readingTime := 1 }

def docDraft : Article :=
  { id := "d", title := "d", description := "", content := "c",
    date := some ⟨0, 1970⟩, draft := true, readingTime := 1 }

def storePD : ArticleManager :=
  { articles := [("p", docP), ("d", docDraft)] }

/-- Term in both title and body. -/
def docGuide1 : Article :=
  { id := "g1", title := "guide", description := "", content := "guide",
    date := some ⟨0, 1970⟩, readingTime := 1 }

/-- Term only in the body, but a prefix-extension of it in the title. -/
def docGuide2 : Article :=
  { id := "g2", title := "guidebook", description := "",
    content := "guide", date := some ⟨0, 1970⟩, readingTime := 1 }

/-- Term only in the body, no prefix-extension anywhere. -/
def docGuide3 : Article :=
  { id := "g3", title := "other", description := "", content := "guide",
    date := some ⟨0, 1970⟩, readingTime := 1 }

def docOther : Article :=
  { id := "other", title := "o", description := "", content := "c",
    date := some ⟨0, 1970⟩, readingTime := 1 }

/-- A well-formed plugin whose activation hook never settles in time. -/
def pluginTimeout : Plugin :=
  { name := "tp", version := "1.0.0",
    activate := { actions := [], outcome := .timesOut } }

def amDisposed : ArticleManager := { disposed := true }

def seDisposed : SearchEngine := { disposed := true }

def pmDisposed : PluginManager := { disposed := true }

/-! # Theorems -/

/-! ## Map lemmas -/

theorem mapSet_length_of_has {β : Type} (m : List (String × β)) (k : String)
    (v : β) (h : mapHas m k = true) :
    (mapSet m k v).length = m.length := by
  induction m with
  | nil => simp [mapHas] at h
  | cons e rest ih =>
    by_cases he : e.1 = k
    · simp [mapSet, he]
    · simp only [mapHas, Bool.or_eq_true, decide_eq_true_eq] at h
      rcases h with h | h
      · exact absurd h he
      · simp [mapSet, he, ih h]

theorem mapSet_length_of_not_has {β : Type} (m : List (String × β))
    (k : String) (v : β) (h : mapHas m k = false) :
    (mapSet m k v).length = m.length + 1 := by
  induction m with
  | nil => simp [mapSet]
  | cons e rest ih =>
    simp only [mapHas, Bool.or_eq_false_iff, decide_eq_false_iff_not] at h
    simp [mapSet, h.1, ih h.2]

theorem mapKeys_mapSet {β : Type} (m : List (String × β)) (k : String) (v : β) :
    mapKeys (mapSet m k v) =
      if mapHas m k then mapKeys m else mapKeys m ++ [k] := by
  induction m with
  | nil => simp [mapSet, mapHas, mapKeys]
  | cons e rest ih =>
    by_cases he : e.1 = k
    · simp [mapSet, mapHas, mapKeys, he]
    · by_cases hrest : mapHas rest k
      · simp [mapSet, mapHas, mapKeys, he, hrest] at ih ⊢
        exact ih
      · simp [mapSet, mapHas, mapKeys, he, hrest] at ih ⊢
        exact ih

theorem mapHas_iff_mem_keys {β : Type} (m : List (String × β)) (k : String) :
    mapHas m k = true ↔ k ∈ mapKeys m := by
  induction m with
  | nil => simp [mapHas, mapKeys]
  | cons e rest ih =>
    simp only [mapHas, Bool.or_eq_true, decide_eq_true_eq, mapKeys,
      List.map_cons, List.mem_cons, ih]
    constructor
    · rintro (h | h)
      · exact Or.inl h.symm
      · exact Or.inr h
    · rintro (h | h)
      · exact Or.inl h.symm
      · exact Or.inr h

theorem mapKeys_nodup_mapSet {β : Type} (m : List (String × β)) (k : String)
    (v : β) (h : (mapKeys m).Nodup) : (mapKeys (mapSet m k v)).Nodup := by
  rw [mapKeys_mapSet]
  by_cases hk : mapHas m k
  · simpa [hk]
  · rw [if_neg (by simp [hk])]
    refine List.Nodup.append h (List.nodup_singleton k) ?_
    intro a ha hb
    rcases List.mem_singleton.mp hb with rfl
    exact (by simpa [hk] using (mapHas_iff_mem_keys m a).mpr ha)

theorem mapGet_mapSet_self {β : Type} (m : List (String × β)) (k : String)
    (v : β) : mapGet (mapSet m k v) k = some v := by
  induction m with
  | nil => simp [mapGet, mapSet]
  | cons e rest ih =>
    by_cases he : e.1 = k
    · simp [mapGet, mapSet, he]
    · simp [mapGet, mapSet, he, ih]

theorem mapGet_mapSet_ne {β : Type} (m : List (String × β)) (k k' : String)
    (v : β) (h : k ≠ k') : mapGet (mapSet m k v) k' = mapGet m k' := by
  induction m with
  | nil => simp [mapGet, mapSet, h]
  | cons e rest ih =>
    by_cases he : e.1 = k
    · simp [mapGet, mapSet, he, h]
    · by_cases he' : e.1 = k'
      · simp [mapGet, mapSet, he, he', Ne.symm h]
      · simp [mapGet, mapSet, he, he', ih]

theorem mapDelete_length_of_mem {β : Type} (m : List (String × β))
    (k : String) (h : k ∈ mapKeys m) :
    (mapDelete m k).length + 1 = m.length := by
  induction m with
  | nil => simp [mapKeys] at h
  | cons e rest ih =>
    by_cases he : e.1 = k
    · simp [mapDelete, he]
    · rcases List.mem_cons.mp h with h1 | h1
      · exact absurd h1.symm he
      · simp [mapDelete, he, ih h1]

theorem mapHas_mapDelete_false {β : Type} (m : List (String × β))
    (k k' : String) (h : mapHas m k' = false) :
    mapHas (mapDelete m k) k' = false := by
  induction m with
  | nil => simp [mapDelete, mapHas]
  | cons e rest ih =>
    simp only [mapHas, Bool.or_eq_false_iff, decide_eq_false_iff_not] at h
    by_cases he : e.1 = k
    · simpa [mapDelete, he, mapHas] using
        (by simpa [mapHas] using h.2)
    · simp only [mapDelete, he, if_neg, not_false_iff, mapHas,
        Bool.or_eq_false_iff, decide_eq_false_iff_not]
      exact ⟨h.1, ih (by simpa [mapHas] using h.2)⟩

/-! ## Cache lemmas -/

namespace Cache

theorem lfuStep_snd {T : Type} (acc : Option Nat × Option String)
    (e : String × CacheEntry T) :
    (lfuStep acc e).2 = acc.2 ∨ (lfuStep acc e).2 = some e.1 := by
  rcases hacc : acc.1 with _ | best
  · exact Or.inr (by simp [lfuStep, hacc])
  · by_cases hlt : e.2.hits < best
    · exact Or.inr (by simp [lfuStep, hacc, hlt])
    · exact Or.inl (by simp [lfuStep, hacc, hlt])

theorem lfuStep_snd_isSome {T : Type} (acc : Option Nat × Option String)
    (e : String × CacheEntry T) (h : acc.2.isSome) :
    ((lfuStep acc e).2).isSome := by
  rcases lfuStep_snd acc e with h1 | h1 <;> simp [h1, h]

theorem foldl_lfuStep_isSome {T : Type}
    (rest : List (String × CacheEntry T)) :
    ∀ (acc : Option Nat × Option String), acc.2.isSome →
      ((rest.foldl lfuStep acc).2).isSome := by
  induction rest with
  | nil => intro acc h; simpa using h
  | cons e rs ih =>
    intro acc h
    simpa using ih (lfuStep acc e) (lfuStep_snd_isSome acc e h)

theorem selectLfu_isSome {T : Type} (l : List (String × CacheEntry T))
    (h : l ≠ []) : (selectLfu l).isSome := by
  rcases l with _ | ⟨e, rest⟩
  · exact absurd rfl h
  · unfold selectLfu
    simp only [List.foldl_cons]
    refine foldl_lfuStep_isSome rest (lfuStep (none, none) e) ?_
    simp [lfuStep]

theorem foldl_lfuStep_mem {T : Type} (rest : List (String × CacheEntry T)) :
    ∀ (acc : Option Nat × Option String) (k : String),
      (rest.foldl lfuStep acc).2 = some k →
      acc.2 = some k ∨ k ∈ mapKeys rest := by
  induction rest with
  | nil => intro acc k hf; exact Or.inl (by simpa using hf)
  | cons e rs ih =>
    intro acc k hf
    simp only [List.foldl_cons] at hf
    rcases ih _ k hf with h1 | h1
    · rcases lfuStep_snd acc e with h2 | h2
      · exact Or.inl (h2 ▸ h1)
      · rw [h2] at h1
        exact Or.inr (by simp [mapKeys, Option.some_inj.mp h1])
    · exact Or.inr (by simp [mapKeys] at h1 ⊢; exact Or.inr h1)

theorem selectLfu_mem {T : Type} (l : List (String × CacheEntry T))
    (k : String) (h : selectLfu l = some k) : k ∈ mapKeys l := by
  unfold selectLfu at h
  rcases foldl_lfuStep_mem l (none, none) k h with h1 | h1
  · simp at h1
  · exact h1

theorem lfu_evict_length {T : Type} (c : MemoryCache T) (now : Int)
    (hp : c.evictionPolicy = .lfu) (hne : c.cache ≠ [])
    (hempty : "" ∉ mapKeys c.cache) :
    (c.evict now).cache.length + 1 = c.cache.length := by
  unfold MemoryCache.evict
  rw [if_neg (by simpa [List.isEmpty_iff] using hne)]
  rcases hsel : selectLfu c.cache with _ | k
  · have := selectLfu_isSome c.cache hne
    rw [hsel] at this
    simp at this
  · have hmem := selectLfu_mem c.cache k hsel
    have hk : k ≠ "" := fun h => hempty (h ▸ hmem)
    simp only [hp, hsel]
    rw [if_neg hk]
    exact mapDelete_length_of_mem c.cache k hmem

theorem lfu_set_le {T : Type} (c : MemoryCache T) (key : String) (v : T)
    (now : Int) (ms : Option Int) (hp : c.evictionPolicy = .lfu)
    (hlen : c.cache.length ≤ c.maxSize) (hmax : 1 ≤ c.maxSize)
    (hempty : "" ∉ mapKeys c.cache) :
    (c.set key v now ms).cache.length ≤ c.maxSize := by
  unfold MemoryCache.set
  by_cases hhas : mapHas c.cache key
  · rw [if_neg (by simp [hhas])]
    simpa [mapSet_length_of_has c.cache key _ hhas] using hlen
  · by_cases hfull : c.cache.length ≥ c.maxSize
    · have hlen' : c.cache.length = c.maxSize := le_antisymm hlen hfull
      have hne : c.cache ≠ [] := by
        intro h
        rw [h] at hlen'
        simp at hlen'
        omega
      rw [if_pos ⟨hfull, by simp [hhas]⟩]
      have hdel := lfu_evict_length c now hp hne hempty
      have hhas' : mapHas (c.evict now).cache key = false := by
        unfold MemoryCache.evict
        rw [if_neg (by simpa [List.isEmpty_iff] using hne)]
        rcases hsel : selectLfu c.cache with _ | k
        · have := selectLfu_isSome c.cache hne
          rw [hsel] at this
          simp at this
        · have hmem := selectLfu_mem c.cache k hsel
          have hk : k ≠ "" := fun h => hempty (h ▸ hmem)
          simp only [hp, hsel]
          rw [if_neg hk]
          exact mapHas_mapDelete_false c.cache k key (by simpa using hhas)
      rw [mapSet_length_of_not_has _ _ _ hhas']
      omega
    · rw [if_neg (by intro h; exact hfull h.1)]
      rw [mapSet_length_of_not_has _ _ _ (by simpa using hhas)]
      omega

end Cache

/-! ## Further map lemmas -/

theorem mem_mapSet {β : Type} (m : List (String × β)) (k : String) (v : β)
    (e : String × β) (he : e ∈ mapSet m k v) : e ∈ m ∨ e = (k, v) := by
  induction m with
  | nil => simp [mapSet] at he; exact Or.inr he
  | cons f rest ih =>
    by_cases hf : f.1 = k
    · simp only [mapSet, hf, if_pos] at he
      rcases List.mem_cons.mp he with h | h
      · exact Or.inr h
      · exact Or.inl (List.mem_cons_of_mem f h)
    · simp only [mapSet, hf, if_neg, not_false_iff] at he
      rcases List.mem_cons.mp he with h | h
      · exact Or.inl (h ▸ List.mem_cons_self f rest)
      · rcases ih h with h1 | h1
        · exact Or.inl (List.mem_cons_of_mem f h1)
        · exact Or.inr h1

theorem mapGet_mem {β : Type} (m : List (String × β)) (k : String) (v : β)
    (h : mapGet m k = some v) : (k, v) ∈ m := by
  induction m with
  | nil => simp [mapGet] at h
  | cons e rest ih =>
    by_cases he : e.1 = k
    · simp only [mapGet, he, if_pos, Option.some.injEq] at h
      have : e = (k, v) := Prod.ext he h
      exact this ▸ List.mem_cons_self e rest
    · simp only [mapGet, he, if_neg, not_false_iff] at h
      exact List.mem_cons_of_mem e (ih h)

/-! ## `SearchEngine` lemmas -/

namespace SearchEngine

theorem updateFirstPosting_map_articleId (ps : List SearchIndex)
    (aid : String) (w : Nat) :
    (updateFirstPosting ps aid w).map (fun p => p.articleId) =
      ps.map (fun p => p.articleId) := by
  induction ps with
  | nil => rfl
  | cons p rest ih =>
    by_cases hp : p.articleId = aid
    · simp [updateFirstPosting, hp]
    · simp [updateFirstPosting, hp, ih]

theorem updatePostings_nodup (ps : List SearchIndex) (aid content w : String)
    (wt : Nat) (h : (ps.map (fun p => p.articleId)).Nodup) :
    ((updatePostings ps aid content w wt).map
      (fun p => p.articleId)).Nodup := by
  unfold updatePostings
  by_cases hany : ps.any (fun i => i.articleId = aid)
  · rw [if_pos hany, updateFirstPosting_map_articleId]
    exact h
  · rw [if_neg hany]
    simp only [List.map_append, List.map_cons, List.map_nil]
    refine List.Nodup.append h (List.nodup_singleton aid) ?_
    intro x hx hy
    rcases List.mem_singleton.mp hy with rfl
    rcases List.mem_map.mp hx with ⟨p, hp, hpid⟩
    simp only [List.any_eq_true, decide_eq_true_eq] at hany
    exact hany ⟨p, hp, hpid⟩

theorem postings_of_get {idx : List (String × List SearchIndex)}
    (hn : postingsNodup idx) (w : String) :
    ((((mapGet idx w).getD []).map (fun p => p.articleId)).Nodup) := by
  rcases hget : mapGet idx w with _ | v
  · simp
  · simpa using hn (w, v) (mapGet_mem idx w v hget)

theorem indexInsert_nodup (idx : List (String × List SearchIndex))
    (word aid content : String) (wt : Nat) (hn : postingsNodup idx) :
    postingsNodup (indexInsert idx word aid content wt) := by
  intro e he
  rcases mem_mapSet _ _ _ _ he with h | h
  · exact hn e h
  · rw [h]
    exact updatePostings_nodup _ aid content word wt (postings_of_get hn word)

theorem tokensFold_nodup (ts : List String)
    (idx : List (String × List SearchIndex)) (aid content : String)
    (wt : Nat) (hn : postingsNodup idx) :
    postingsNodup (ts.foldl
      (fun idx word => indexInsert idx word aid content wt) idx) := by
  induction ts generalizing idx with
  | nil => exact hn
  | cons t rest ih =>
    exact ih _ (indexInsert_nodup idx t aid content wt hn)

theorem fieldsFold_nodup (se : SearchEngine) (items : List (String × Nat))
    (idx : List (String × List SearchIndex)) (aid : String)
    (hn : postingsNodup idx) :
    postingsNodup (items.foldl
      (fun idx item =>
        if item.1 = "" then idx
        else (se.tokenize item.1).foldl
          (fun idx word => indexInsert idx word aid item.1 item.2) idx)
      idx) := by
  induction items generalizing idx with
  | nil => exact hn
  | cons f rest ih =>
    by_cases hf : f.1 = ""
    · simpa [hf] using ih idx hn
    · simpa [hf] using ih _ (tokensFold_nodup _ idx aid f.1 f.2 hn)

theorem indexArticle_nodup (se se' : SearchEngine) (a : Article)
    (h : se.indexArticle a = .ok se') (hn : postingsNodup se.index) :
    postingsNodup se'.index := by
  unfold indexArticle at h
  by_cases hc : a.id = "" ∨ a.title = "" ∨ a.content = ""
  · rw [if_pos hc] at h
    exact absurd h (by simp)
  · rw [if_neg hc] at h
    have := Except.ok.inj h
    rw [← this]
    exact fieldsFold_nodup se (se.indexItems a) se.index a.id hn

theorem indexLoop_nodup (docs : List RawDoc) (se : SearchEngine)
    (hn : postingsNodup se.index) :
    postingsNodup (indexLoop se docs).index := by
  induction docs generalizing se with
  | nil => exact hn
  | cons d rest ih =>
    rcases d with _ | a
    · exact ih se hn
    · rcases hidx : se.indexArticle a with e | se'
      · simpa [indexLoop, hidx] using ih se hn
      · have hn' : postingsNodup se'.index :=
          indexArticle_nodup se se' a hidx hn
        simp only [indexLoop, hidx]
        by_cases hbreak : ({ se' with
            articles := mapSet se'.articles a.id a } :
            SearchEngine).index.length >
            jsOrNat ({ se' with articles := mapSet se'.articles a.id a } :
              SearchEngine).maxIndexSize 100000
        · rw [if_pos hbreak]
          exact hn'
        · rw [if_neg hbreak]
          exact ih _ hn'

theorem indexArticles_nodup (se se' : SearchEngine) (docs : List RawDoc)
    (h : se.indexArticles docs = .ok se') : postingsNodup se'.index := by
  unfold indexArticles at h
  rcases hdisp : se.disposed with _ | _
  · simp [checkDisposed, hdisp] at h
    rw [← h]
    exact indexLoop_nodup docs _ (by intro e he; simp [resetState] at he)
  · simp [checkDisposed, hdisp] at h

end SearchEngine

theorem mem_dedupFirstAux {α : Type} [DecidableEq α] :
    ∀ (l seen : List α) (a : α), a ∈ dedupFirstAux seen l → a ∈ l := by
  intro l
  induction l with
  | nil => intro seen a ha; simp [dedupFirstAux] at ha
  | cons x xs ih =>
    intro seen a ha
    by_cases hx : x ∈ seen
    · simp only [dedupFirstAux, hx, if_pos] at ha
      exact List.mem_cons_of_mem x (ih seen a ha)
    · simp only [dedupFirstAux, hx, if_neg, not_false_iff] at ha
      rcases List.mem_cons.mp ha with h | h
      · exact h ▸ List.mem_cons_self x _
      · exact List.mem_cons_of_mem x (ih (x :: seen) a h)

theorem not_mem_seen_dedupFirstAux {α : Type} [DecidableEq α] :
    ∀ (l seen : List α) (a : α), a ∈ dedupFirstAux seen l → a ∉ seen := by
  intro l
  induction l with
  | nil => intro seen a ha; simp [dedupFirstAux] at ha
  | cons x xs ih =>
    intro seen a ha
    by_cases hx : x ∈ seen
    · simp only [dedupFirstAux, hx, if_pos] at ha
      exact ih seen a ha
    · simp only [dedupFirstAux, hx, if_neg, not_false_iff] at ha
      rcases List.mem_cons.mp ha with h | h
      · exact h ▸ hx
      · intro hseen
        exact ih (x :: seen) a h (List.mem_cons_of_mem x hseen)

theorem dedupFirstAux_nodup {α : Type} [DecidableEq α] :
    ∀ (l seen : List α), (dedupFirstAux seen l).Nodup := by
  intro l
  induction l with
  | nil => intro seen; simp [dedupFirstAux]
  | cons x xs ih =>
    intro seen
    by_cases hx : x ∈ seen
    · simpa [dedupFirstAux, hx] using ih seen
    · simp only [dedupFirstAux, hx, if_neg, not_false_iff]
      refine List.nodup_cons.mpr ⟨?_, ih (x :: seen)⟩
      intro hmem
      exact not_mem_seen_dedupFirstAux xs (x :: seen) x hmem
        (List.mem_cons_self x seen)

theorem mem_dedupFirst {α : Type} [DecidableEq α] (l : List α) (a : α)
    (h : a ∈ dedupFirst l) : a ∈ l :=
  mem_dedupFirstAux l [] a h

theorem dedupFirst_nodup {α : Type} [DecidableEq α] (l : List α) :
    (dedupFirst l).Nodup :=
  dedupFirstAux_nodup l []

namespace SearchEngine

theorem tokenize_nodup (se : SearchEngine) (text : String) :
    (se.tokenize text).Nodup := by
  unfold tokenize
  by_cases h : text = ""
  · simp [h]
  · simpa [h] using dedupFirst_nodup _

theorem find?_updateFirstPosting (ps : List SearchIndex) (aid : String)
    (w : Nat) :
    (updateFirstPosting ps aid w).find? (fun p => p.articleId = aid) =
      (ps.find? (fun p => p.articleId = aid)).map
        (fun p => { p with weight := min (p.weight + w) 1000 }) := by
  induction ps with
  | nil => rfl
  | cons p rest ih =>
    by_cases hp : p.articleId = aid
    · simp [updateFirstPosting, List.find?_cons, hp]
    · simp [updateFirstPosting, List.find?_cons, hp, ih]

theorem getWeight_indexInsert_same (idx : List (String × List SearchIndex))
    (word aid content : String) (wt : Nat) (hwt : wt ≤ 1000) :
    getWeight (indexInsert idx word aid content wt) word aid =
      some (min ((getWeight idx word aid).getD 0 + wt) 1000) := by
  unfold getWeight indexInsert
  rw [mapGet_mapSet_self]
  simp only [Option.getD_some]
  set ps := (mapGet idx word).getD [] with hps
  unfold updatePostings
  by_cases hany : ps.any (fun i => i.articleId = aid)
  · rw [if_pos hany, find?_updateFirstPosting]
    rcases hfind : ps.find? (fun p => p.articleId = aid) with _ | p0
    · rw [List.find?_eq_none] at hfind
      simp only [List.any_eq_true, decide_eq_true_eq] at hany
      rcases hany with ⟨p, hp, hpid⟩
      exact absurd (by simpa using hpid) (by simpa using hfind p hp)
    · simp [hfind]
  · rw [if_neg hany]
    simp only
    rw [List.find?_append]
    have hnone : ps.find? (fun p => p.articleId = aid) = none := by
      rw [List.find?_eq_none]
      intro p hp hpid
      simp only [List.any_eq_true, decide_eq_true_eq] at hany
      exact hany ⟨p, hp, by simpa using hpid⟩
    rw [hnone]
    simp [List.find?_cons, Nat.min_def, hwt]

theorem getWeight_indexInsert_ne (idx : List (String × List SearchIndex))
    (word w aid content : String) (wt : Nat) (hne : word ≠ w) :
    getWeight (indexInsert idx word aid content wt) w aid =
      getWeight idx w aid := by
  unfold getWeight indexInsert
  rw [mapGet_mapSet_ne _ _ _ _ hne]

theorem getWeight_tokensFold (ts : List String)
    (idx : List (String × List SearchIndex)) (w aid content : String)
    (wt : Nat) (hts : ts.Nodup) (hwt : wt ≤ 1000) :
    getWeight (ts.foldl
        (fun idx word => indexInsert idx word aid content wt) idx) w aid =
      if w ∈ ts then some (min ((getWeight idx w aid).getD 0 + wt) 1000)
      else getWeight idx w aid := by
  induction ts generalizing idx with
  | nil => simp
  | cons t rest ih =>
    rcases List.nodup_cons.mp hts with ⟨hnotin, hrest⟩
    simp only [List.foldl_cons]
    by_cases hw : w = t
    · subst hw
      rw [ih _ hrest, if_neg hnotin,
        getWeight_indexInsert_same idx w aid content wt hwt,
        if_pos (List.mem_cons_self w rest)]
    · rw [ih _ hrest, getWeight_indexInsert_ne idx t w aid content wt
        (fun h => hw h.symm)]
      by_cases hmem : w ∈ rest
      · rw [if_pos hmem, if_pos (List.mem_cons_of_mem t hmem)]
      · rw [if_neg hmem, if_neg (by
          intro h
          rcases List.mem_cons.mp h with h | h
          · exact hw h
          · exact hmem h)]

theorem getWeight_fieldsFold (se : SearchEngine)
    (items : List (String × Nat)) (idx : List (String × List SearchIndex))
    (w aid : String) (hwts : ∀ f ∈ items, f.2 ≤ 1000) :
    getWeight (items.foldl
        (fun idx item =>
          if item.1 = "" then idx
          else (se.tokenize item.1).foldl
            (fun idx word => indexInsert idx word aid item.1 item.2) idx)
        idx) w aid =
      (items.filter (fun f => f.1 ≠ "" ∧ w ∈ se.tokenize f.1)).foldl
        (fun acc f => capAdd acc f.2) (getWeight idx w aid) := by
  induction items generalizing idx with
  | nil => simp
  | cons f rest ih =>
    simp only [List.foldl_cons]
    by_cases hf : f.1 = ""
    · rw [if_pos hf]
      rw [ih idx (fun g hg => hwts g (List.mem_cons_of_mem f hg))]
      congr 1
      rw [List.filter_cons]
      simp [hf]
    · rw [if_neg hf]
      by_cases hmem : w ∈ se.tokenize f.1
      · rw [ih _ (fun g hg => hwts g (List.mem_cons_of_mem f hg))]
        rw [getWeight_tokensFold _ idx w aid f.1 f.2
          (tokenize_nodup se f.1) (hwts f (List.mem_cons_self f rest)),
          if_pos hmem]
        rw [List.filter_cons, if_pos (by simp [hf, hmem])]
        simp only [List.foldl_cons]
        rfl
      · rw [ih _ (fun g hg => hwts g (List.mem_cons_of_mem f hg))]
        rw [getWeight_tokensFold _ idx w aid f.1 f.2
          (tokenize_nodup se f.1) (hwts f (List.mem_cons_self f rest)),
          if_neg hmem]
        rw [List.filter_cons, if_neg (by simp [hmem])]

theorem foldl_capAdd_some (ws : List Nat) :
    ∀ (x : Nat), x + ws.sum ≤ 1000 →
      ws.foldl capAdd (some x) = some (x + ws.sum) := by
  induction ws with
  | nil => intro x _; simp
  | cons v rest ih =>
    intro x hx
    simp only [List.foldl_cons, List.sum_cons] at hx ⊢
    have h1 : capAdd (some x) v = some (x + v) := by
      simp only [capAdd, Option.getD_some]
      congr 1
      omega
    rw [h1, ih (x + v) (by omega)]
    congr 1
    omega

theorem foldl_capAdd_none (ws : List Nat) (h : ws.sum ≤ 1000) :
    ws.foldl capAdd none = if ws = [] then none else some ws.sum := by
  rcases ws with _ | ⟨v, rest⟩
  · simp
  · simp only [List.foldl_cons, List.sum_cons] at h ⊢
    have h1 : capAdd none v = some (0 + v) := by
      unfold capAdd
      congr 1
      simp only [Option.getD_none]
      omega
    rw [h1, foldl_capAdd_some rest (0 + v) (by omega)]
    rw [if_neg (by simp)]
    congr 1
    omega

theorem indexItems_weights (se : SearchEngine) (a : Article) :
    (se.indexItems a).map (fun f => f.2) = [10, 5, 4, 4, 1] := rfl

theorem indexItems_weights_le (se : SearchEngine) (a : Article) :
    ∀ f ∈ se.indexItems a, f.2 ≤ 1000 := by
  intro f hf
  have : f.2 ∈ (se.indexItems a).map (fun g => g.2) :=
    List.mem_map_of_mem _ hf
  rw [indexItems_weights] at this
  simp only [List.mem_cons, List.not_mem_nil, or_false] at this
  omega

theorem indexItems_weights_pos (se : SearchEngine) (a : Article) :
    ∀ f ∈ se.indexItems a, 0 < f.2 := by
  intro f hf
  have : f.2 ∈ (se.indexItems a).map (fun g => g.2) :=
    List.mem_map_of_mem _ hf
  rw [indexItems_weights] at this
  simp only [List.mem_cons, List.not_mem_nil, or_false] at this
  omega

theorem fieldWeightSum_le (se : SearchEngine) (a : Article) (w : String) :
    fieldWeightSum se a w ≤ 24 := by
  unfold fieldWeightSum
  have hsub : (((se.indexItems a).filter
      (fun f => f.1 ≠ "" ∧ w ∈ se.tokenize f.1)).map
      (fun f => f.2)).Sublist ((se.indexItems a).map (fun f => f.2)) :=
    List.Sublist.map _ (List.filter_sublist _)
  have := List.Sublist.sum_le_sum hsub (fun x _ => Nat.zero_le x)
  rw [indexItems_weights] at this
  simpa using this

theorem if_isEmpty_sum (ws : List Nat) (hpos : ∀ v ∈ ws, 0 < v) :
    (if ws = [] then (none : Option Nat) else some ws.sum) =
    if ws.sum = 0 then none else some ws.sum := by
  rcases ws with _ | ⟨v, rest⟩
  · simp
  · have hv := hpos v (List.mem_cons_self v rest)
    have hne : (v :: rest).sum ≠ 0 := by
      simp only [List.sum_cons]
      omega
    rw [if_neg (by simp), if_neg hne]

theorem indexArticle_weight (se se' : SearchEngine) (a : Article)
    (w : String) (hidx : se.index = []) (h : se.indexArticle a = .ok se') :
    getWeight se'.index w a.id =
      if fieldWeightSum se a w = 0 then none
      else some (fieldWeightSum se a w) := by
  unfold indexArticle at h
  by_cases hc : a.id = "" ∨ a.title = "" ∨ a.content = ""
  · rw [if_pos hc] at h
    exact absurd h (by simp)
  · rw [if_neg hc] at h
    have hse := Except.ok.inj h
    have hfinal : se'.index = (se.indexItems a).foldl
        (fun idx item =>
          if item.1 = "" then idx
          else (se.tokenize item.1).foldl
            (fun idx word => indexInsert idx word a.id item.1 item.2) idx)
        se.index := by rw [← hse]
    rw [hfinal]
    rw [getWeight_fieldsFold se (se.indexItems a) se.index w a.id
      (indexItems_weights_le se a)]
    rw [hidx]
    have hnone : getWeight [] w a.id = none := rfl
    rw [hnone]
    rw [show ((se.indexItems a).filter
        (fun f => f.1 ≠ "" ∧ w ∈ se.tokenize f.1)).foldl
        (fun acc f => capAdd acc f.2) none =
        (((se.indexItems a).filter
          (fun f => f.1 ≠ "" ∧ w ∈ se.tokenize f.1)).map
          (fun f => f.2)).foldl capAdd none from
      (List.foldl_map _ _ _ _).symm]
    set ws := ((se.indexItems a).filter
      (fun f => f.1 ≠ "" ∧ w ∈ se.tokenize f.1)).map (fun f => f.2)
      with hws
    have hfw : fieldWeightSum se a w = ws.sum := by
      rw [hws]
      rfl
    have hsum : ws.sum ≤ 1000 := by
      rw [← hfw]
      exact le_trans (fieldWeightSum_le se a w) (by omega)
    have hpos : ∀ v ∈ ws, 0 < v := by
      intro v hv
      rw [hws] at hv
      rcases List.mem_map.mp hv with ⟨f, hf, hfv⟩
      have := indexItems_weights_pos se a f (List.mem_filter.mp hf).1
      omega
    rw [foldl_capAdd_none ws hsum, if_isEmpty_sum ws hpos, ← hfw]

end SearchEngine

/-! ## `ArticleManager` lemmas -/

namespace ArticleManager

theorem view_no_drafts (m : ArticleManager) (h : m.includeDrafts = false) :
    ∀ a ∈ m.view, a.draft = false := by
  intro a ha
  unfold view at ha
  rw [h] at ha
  simp only [Bool.false_eq_true, if_neg, not_false_iff] at ha
  have := (List.mem_filter.mp ha).2
  simpa using this

theorem mem_filteredView (m : ArticleManager) (f : Option ArticleFilter)
    (a : Article) (ha : a ∈ m.filteredView f) : a ∈ m.view := by
  unfold filteredView at ha
  rcases f with _ | f
  · exact ha
  · simp only at ha
    have base : ∀ x ∈ filterArticles m.view
        (some { tag := f.tag, category := f.category, year := f.year }),
        x ∈ m.view := by
      intro x hx
      exact (List.mem_filter.mp hx).1
    rcases hs : f.search with _ | s
    · rw [hs] at ha
      exact base a ha
    · rw [hs] at ha
      by_cases hne : s ≠ ""
      · have ha' : a ∈ filterArticles m.view
            (some { tag := f.tag, category := f.category, year := f.year }) ∧
            ((jsIncludes (jsToLower a.title) (jsToLower s) = true ∨
              jsIncludes (jsToLower a.description) (jsToLower s) = true) ∨
              jsIncludes (jsToLower a.content) (jsToLower s) = true) := by
          simpa [hne] using ha
        exact base a ha'.1
      · exact base a (by simpa [hne] using ha)

theorem mem_getArticleListCore (m : ArticleManager)
    (f : Option ArticleFilter) (o : Option ListOptions) (a : Article)
    (ha : a ∈ (m.getArticleListCore f o).items) : a ∈ m.view := by
  unfold getArticleListCore at ha
  simp only at ha
  have hpag : ∀ opts sorted, a ∈ paginate opts sorted → a ∈ sorted := by
    intro opts sorted h
    rcases opts with _ | ⟨srt, pg, ps⟩
    · exact h
    · rcases pg with _ | p <;> rcases ps with _ | q
      · exact h
      · exact h
      · exact h
      · by_cases hc : p ≠ 0 ∧ q ≠ 0
        · rw [show (paginate (some ⟨srt, some p, some q⟩) sorted) =
            List.take (max 1 q).toNat
              (List.drop ((max 1 p - 1) * max 1 q).toNat sorted) from by
              simp [paginate, hc]] at h
          exact List.mem_of_mem_drop (List.mem_of_mem_take h)
        · rw [show (paginate (some ⟨srt, some p, some q⟩) sorted) =
            sorted from by simp [paginate, hc]] at h
          exact h
  have h1 := hpag _ _ ha
  rw [sortArticles, List.mem_insertionSort] at h1
  exact mem_filteredView m f a h1

theorem mem_getRelatedArticlesCore (m : ArticleManager) (id : String)
    (lim : Int) (a : Article)
    (ha : a ∈ m.getRelatedArticlesCore id lim) : a ∈ m.view := by
  unfold getRelatedArticlesCore at ha
  rcases hget : mapGet m.articles id with _ | art
  · rw [hget] at ha
    simp at ha
  · rw [hget] at ha
    simp only at ha
    rcases List.mem_map.mp ha with ⟨p, hp, rfl⟩
    have hp1 := List.mem_of_mem_take hp
    rw [List.mem_insertionSort] at hp1
    have hp2 := (List.mem_filter.mp hp1).1
    rcases List.mem_map.mp hp2 with ⟨c, hc, rfl⟩
    exact (List.mem_filter.mp hc).1

theorem getArticleList_eq (m : ArticleManager) (f : Option ArticleFilter)
    (o : Option ListOptions) (hd : m.disposed = false) :
    m.getArticleList f o = .ok (m.getArticleListCore f o) := by
  simp [getArticleList, checkDisposed, hd]

theorem paginate_inactive (o : Option ListOptions) (sorted : List Article)
    (h : o = none ∨ ∃ o', o = some o' ∧ (o'.page = none ∨
      o'.page = some 0 ∨ o'.pageSize = none ∨ o'.pageSize = some 0)) :
    paginate o sorted = sorted := by
  rcases h with rfl | ⟨o', rfl, h⟩
  · rfl
  · rcases o' with ⟨srt, pg, ps⟩
    rcases h with h | h | h | h <;> simp at h
    · subst h; rcases ps with _ | q <;> rfl
    · subst h; rcases ps with _ | q
      · rfl
      · simp [paginate]
    · subst h; rcases pg with _ | p <;> rfl
    · subst h; rcases pg with _ | p
      · rfl
      · simp [paginate]

theorem paginate_active (o' : ListOptions) (p ps : Int)
    (sorted : List Article) (hp : o'.page = some p)
    (hps : o'.pageSize = some ps) (h1 : p ≠ 0) (h2 : ps ≠ 0) :
    paginate (some o') sorted =
      (sorted.drop (((max 1 p - 1) * max 1 ps).toNat)).take
        (max 1 ps).toNat := by
  rcases o' with ⟨srt, pg, psz⟩
  simp at hp hps
  subst hp; subst hps
  simp [paginate, h1, h2]

theorem getArticleListCore_spec (m : ArticleManager)
    (f : Option ArticleFilter) (o : Option ListOptions) :
    (m.getArticleListCore f o).total = (m.filteredView f).length ∧
    (m.getArticleListCore f o).items =
      paginate o (sortArticles (m.filteredView f)
        ((o.bind (·.sort)).getD .desc)) ∧
    (m.getArticleListCore f o).filtered =
      (m.getArticleListCore f o).items.length := by
  refine ⟨rfl, rfl, rfl⟩

end ArticleManager

/-- C1: the claim as stated is false.  `parseValue` hands the bracketed
value `[x,y]` to `JSON.parse`, which rejects the unquoted element names,
so the value stays the plain string `"[x,y]"`; `createArticleFromMarkdown`
then sees a non-array `tags` value and produces an empty tag list, not
`["x","y"]`. -/
theorem C1_roundtrip_counterexample :
    parseValue "[x,y]" = .str "[x,y]" ∧
    (((({} : ArticleManager).createArticleFromMarkdown "a"
      "---\ntitle: Hello\ntags: [x,y]\n---\nBody text"
      ⟨0, 1970⟩).map Article.tags) = .ok []) := by
  constructor
  · rfl
  · rfl

/-- C1 (amended): for the input id `"a"` and the source text
`"---\ntitle: Hello\ntags: [x,y]\n---\nBody text"`, the created document
has title `"Hello"` and body `"Body text"`, but its tag list is empty,
because `[x,y]` is not valid JSON and is kept as a plain string, which the
tag extraction discards; with the JSON-quoted source text
`tags: ["x","y"]` the tags are exactly `["x","y"]`. -/
theorem C1_roundtrip_amended :
    ∀ (m : ArticleManager) (now : DateVal),
    ((m.createArticleFromMarkdown "a"
        "---\ntitle: Hello\ntags: [x,y]\n---\nBody text" now).map
      (fun a => (a.title, a.tags, a.content))) =
      .ok ("Hello", [], "Body text") ∧
    ((m.createArticleFromMarkdown "a"
        "---\ntitle: Hello\ntags: [\"x\",\"y\"]\n---\nBody text" now).map
      (fun a => (a.title, a.tags, a.content))) =
      .ok ("Hello", ["x", "y"], "Body text") := by
  intro m now
  constructor
  · rfl
  · rfl

/-- C4: the claim as stated is false.  `getArticleById` looks the id up in
the raw article map without any draft filtering, so with `includeDrafts`
left `false` a stored draft is still returned by id. -/
theorem C4_drafts_counterexample :
    let a : Article :=
      { id := "d", title := "d", description := "", content := "c",
        date := some ⟨0, 1970⟩, draft := true, readingTime := 1 }
    let m : ArticleManager := { articles := [("d", a)] }
    m.includeDrafts = false ∧
    (m.getArticleById "d").map (fun r => r.map (·.draft)) =
      .ok (some true) := by
  exact ⟨rfl, rfl⟩

/-- C4 (amended): with `includeDrafts` false, the read operations that go
through the draft-filtered view — `getArticles`, `getArticleList`,
`getRelatedArticles` — never return a draft document; `getArticleById`
alone bypasses the filter and can return a stored draft. -/
theorem C4_drafts_amended :
    ∀ (m : ArticleManager), m.includeDrafts = false →
    (∀ l, m.getArticles = .ok l → ∀ a ∈ l, a.draft = false) ∧
    (∀ f o r, m.getArticleList f o = .ok r →
      ∀ a ∈ r.items, a.draft = false) ∧
    (∀ id lim l, m.getRelatedArticles id lim = .ok l →
      ∀ a ∈ l, a.draft = false) := by
  intro m hdrafts
  have hview := ArticleManager.view_no_drafts m hdrafts
  refine ⟨?_, ?_, ?_⟩
  · intro l hl a ha
    unfold ArticleManager.getArticles at hl
    rcases hdisp : m.disposed with _ | _
    · simp [ArticleManager.checkDisposed, hdisp] at hl
      exact hview a (hl ▸ ha)
    · simp [ArticleManager.checkDisposed, hdisp] at hl
  · intro f o r hr a ha
    unfold ArticleManager.getArticleList at hr
    rcases hdisp : m.disposed with _ | _
    · simp [ArticleManager.checkDisposed, hdisp] at hr
      exact hview a (ArticleManager.mem_getArticleListCore m f o a
        (hr ▸ ha))
    · simp [ArticleManager.checkDisposed, hdisp] at hr
  · intro id lim l hl a ha
    unfold ArticleManager.getRelatedArticles at hl
    rcases hdisp : m.disposed with _ | _
    · simp [ArticleManager.checkDisposed, hdisp] at hl
      exact hview a (ArticleManager.mem_getRelatedArticlesCore m id lim a
        (hl ▸ ha))
    · simp [ArticleManager.checkDisposed, hdisp] at hl

/-- C4 (amended) witness: the draft filter and the by-id bypass on a
concrete two-article store. -/
theorem C4_drafts_amended_witness : docP.draft = false :=
  (C4_drafts_amended storePD rfl).1 [docP] rfl docP (by simp)

/-- C10: pagination in `getArticleList` runs only when both `page` and
`pageSize` are provided and nonzero; otherwise the whole filtered, sorted
list is returned unsliced (`filtered = total`), and the clamp to a minimum
of 1 applies only to nonzero provided values.  Concretely, on a
three-article store, `page = 0, pageSize = 1` returns all three articles,
while `page = -1, pageSize = 1` is clamped to page 1 and returns one. -/
theorem C10_pagination :
    (∀ (m : ArticleManager) (f : Option ArticleManager.ArticleFilter)
      (o : Option ArticleManager.ListOptions)
      (r : ArticleManager.ArticleList),
      m.disposed = false → m.getArticleList f o = .ok r →
      ((o = none ∨ ∃ o', o = some o' ∧ (o'.page = none ∨
          o'.page = some 0 ∨ o'.pageSize = none ∨ o'.pageSize = some 0)) →
        r.filtered = r.total ∧
        r.items = sortArticles (m.filteredView f)
          ((o.bind (·.sort)).getD .desc) ∧
        r.items.length = r.total) ∧
      (∀ o' p ps, o = some o' → o'.page = some p → o'.pageSize = some ps →
        p ≠ 0 → ps ≠ 0 →
        r.items = ((sortArticles (m.filteredView f)
            ((o.bind (·.sort)).getD .desc)).drop
            (((max 1 p - 1) * max 1 ps).toNat)).take (max 1 ps).toNat)) ∧
    ((store3.getArticleList none
        (some ({ page := some 0, pageSize := some 1 } :
          ArticleManager.ListOptions))).map
        (fun r => (List.map (fun (a : Article) => a.id) r.items, r.total,
          r.filtered))) = .ok (["c", "b", "a"], 3, 3) ∧
    ((store3.getArticleList none
        (some ({ page := some (-1), pageSize := some 1 } :
          ArticleManager.ListOptions))).map
        (fun r => (List.map (fun (a : Article) => a.id) r.items, r.total,
          r.filtered))) = .ok (["c"], 3, 1) := by
  constructor
  · intro m f o r hd hok
    rw [ArticleManager.getArticleList_eq m f o hd] at hok
    have hr : m.getArticleListCore f o = r := by
      injection hok
    subst hr
    obtain ⟨htotal, hitems, hfiltered⟩ :=
      ArticleManager.getArticleListCore_spec m f o
    constructor
    · intro hinactive
      rw [ArticleManager.paginate_inactive o _ hinactive] at hitems
      refine ⟨?_, hitems, ?_⟩
      · rw [hfiltered, hitems, htotal]
        simp [sortArticles, List.length_insertionSort]
      · rw [hitems, htotal]
        simp [sortArticles, List.length_insertionSort]
    · intro o' p ps ho hp hps h1 h2
      subst ho
      rw [ArticleManager.paginate_active o' p ps _ hp hps h1 h2] at hitems
      exact hitems
  · exact ⟨rfl, rfl⟩

/-- C10 witness: the unsliced branch discharged on a concrete one-article
store with `pageSize` absent. -/
theorem C10_pagination_witness :
    (store1.getArticleListCore none
        (some ({ page := some 5 } : ArticleManager.ListOptions))).filtered =
      (store1.getArticleListCore none
        (some ({ page := some 5 } : ArticleManager.ListOptions))).total ∧
    (store1.getArticleListCore none
        (some ({ page := some 5 } :
          ArticleManager.ListOptions))).items.length =
      (store1.getArticleListCore none
        (some ({ page := some 5 } : ArticleManager.ListOptions))).total :=
  let h := (C10_pagination.1 store1 none
    (some ({ page := some 5 } : ArticleManager.ListOptions))
    (store1.getArticleListCore none
      (some ({ page := some 5 } : ArticleManager.ListOptions))) rfl
    (ArticleManager.getArticleList_eq store1 none
      (some ({ page := some 5 } : ArticleManager.ListOptions)) rfl)).1
    (Or.inr ⟨_, rfl, Or.inr (Or.inr (Or.inl rfl))⟩)
  ⟨h.1, h.2.2⟩

/-! ## `SearchEngine` rebuild lemmas (for C7) -/

namespace SearchEngine

theorem resetState_indexLoop :
    ∀ (docs : List RawDoc) (se : SearchEngine),
      (indexLoop se docs).resetState = se.resetState := by
  intro docs
  induction docs with
  | nil => intro se; rfl
  | cons d rest ih =>
    intro se
    rcases d with _ | a
    · exact ih se
    · rcases hidx : se.indexArticle a with e | se'
      · simpa [indexLoop, hidx] using ih se
      · have hse' : se'.resetState = se.resetState := by
          unfold indexArticle at hidx
          by_cases hc : a.id = "" ∨ a.title = "" ∨ a.content = ""
          · rw [if_pos hc] at hidx
            exact absurd hidx (by simp)
          · rw [if_neg hc] at hidx
            have := Except.ok.inj hidx
            rw [← this]
            rfl
        simp only [indexLoop, hidx]
        by_cases hbreak : ({ se' with
            articles := mapSet se'.articles a.id a } :
            SearchEngine).index.length >
            jsOrNat ({ se' with articles := mapSet se'.articles a.id a } :
              SearchEngine).maxIndexSize 100000
        · rw [if_pos hbreak]
          exact hse'
        · rw [if_neg hbreak]
          have := ih ({ se' with articles := mapSet se'.articles a.id a } :
            SearchEngine)
          rw [this]
          exact hse'

theorem resetState_resetState (se : SearchEngine) :
    se.resetState.resetState = se.resetState := rfl

theorem indexArticles_deterministic (se se1 : SearchEngine)
    (docs : List RawDoc) (h : se.indexArticles docs = .ok se1) :
    se1 = indexLoop se.resetState docs ∧ se.disposed = false := by
  unfold indexArticles at h
  rcases hdisp : se.disposed with _ | _
  · simp [checkDisposed, hdisp] at h
    exact ⟨h.symm, rfl⟩
  · simp [checkDisposed, hdisp] at h

end SearchEngine

/-! ## `SearchEngine` result-shape lemmas (for C8) -/

namespace SearchEngine

theorem scoreFold_nodup (items : List SearchIndex) :
    ∀ (rm : List (String × Nat)), (mapKeys rm).Nodup →
      (mapKeys (items.foldl
        (fun rm item =>
          mapSet rm item.articleId
            ((mapGet rm item.articleId).getD 0 + item.weight)) rm)).Nodup := by
  induction items with
  | nil => intro rm h; exact h
  | cons item rest ih =>
    intro rm h
    exact ih _ (mapKeys_nodup_mapSet rm item.articleId _ h)

theorem keywordFold_nodup (se : SearchEngine) (keywords : List String) :
    ∀ (rm : List (String × Nat)), (mapKeys rm).Nodup →
      (mapKeys (keywords.foldl
        (fun rm keyword =>
          (se.searchIndex keyword).foldl
            (fun rm item =>
              mapSet rm item.articleId
                ((mapGet rm item.articleId).getD 0 + item.weight)) rm)
        rm)).Nodup := by
  induction keywords with
  | nil => intro rm h; exact h
  | cons k rest ih =>
    intro rm h
    exact ih _ (scoreFold_nodup _ rm h)

theorem hydrate_ids (se : SearchEngine)
    (hid : ∀ e ∈ se.articles, e.2.id = e.1) :
    ∀ (rm : List (String × Nat)),
      (rm.filterMap (fun e => (mapGet se.articles e.1).map
        (fun article => ({ article := article, score := e.2 } :
          SearchResult)))).map (fun r => r.article.id) =
      (rm.filter (fun e => (mapGet se.articles e.1).isSome)).map
        (fun e => e.1) := by
  intro rm
  induction rm with
  | nil => rfl
  | cons e rest ih =>
    rcases hget : mapGet se.articles e.1 with _ | a
    · simpa [List.filterMap_cons, List.filter_cons, hget] using ih
    · have hida : a.id = e.1 := hid (e.1, a) (mapGet_mem _ _ _ hget)
      simpa [List.filterMap_cons, List.filter_cons, hget, hida] using ih

theorem searchCore_props (se : SearchEngine) (vq : String)
    (hid : ∀ e ∈ se.articles, e.2.id = e.1) :
    (((se.searchCore vq).map (fun r => r.article.id)).Nodup) ∧
    List.Pairwise (fun (x y : SearchResult) => y.score ≤ x.score)
      (se.searchCore vq) ∧
    (se.searchCore vq).length ≤ max 1 (jsOrNat se.maxResults 20) := by
  unfold searchCore
  by_cases hkw : (se.tokenize vq).isEmpty
  · simp [hkw]
  · rw [if_neg hkw]
    simp only
    set rm : List (String × Nat) := (se.tokenize vq).foldl
      (fun rm keyword =>
        (se.searchIndex keyword).foldl
          (fun rm item =>
            mapSet rm item.articleId
              ((mapGet rm item.articleId).getD 0 + item.weight)) rm)
      [] with hrm
    have hrm_nodup : (mapKeys rm).Nodup := by
      rw [hrm]
      exact keywordFold_nodup se (se.tokenize vq) [] (by simp [mapKeys])
    set results : List SearchResult := rm.filterMap
      (fun e => (mapGet se.articles e.1).map
        (fun article => ({ article := article, score := e.2 } :
          SearchResult))) with hresults
    have hids : (results.map (fun r => r.article.id)).Nodup := by
      rw [hresults, hydrate_ids se hid rm]
      refine List.Sublist.nodup ?_ hrm_nodup
      exact List.Sublist.map _ (List.filter_sublist rm)
    refine ⟨?_, ?_, ?_⟩
    · have hperm : (results.insertionSort
          (fun x y => y.score ≤ x.score)).Perm results :=
        List.perm_insertionSort _ results
      have hperm2 := hperm.map (fun r => r.article.id)
      have hnodup2 := hperm2.symm.nodup hids
      exact List.Sublist.nodup
        (List.Sublist.map _ (List.take_sublist _ _)) hnodup2
    · have hsorted := List.sorted_insertionSort
        (fun (x y : SearchResult) => y.score ≤ x.score) results
      exact List.Pairwise.sublist (List.take_sublist _ _) hsorted
    · exact List.length_take_le _ _

theorem indexLoop_articles_id :
    ∀ (docs : List RawDoc) (se : SearchEngine),
      (∀ e ∈ se.articles, e.2.id = e.1) →
      ∀ e ∈ (indexLoop se docs).articles, e.2.id = e.1 := by
  intro docs
  induction docs with
  | nil => intro se h; exact h
  | cons d rest ih =>
    intro se h
    rcases d with _ | a
    · exact ih se h
    · rcases hidx : se.indexArticle a with er | se'
      · simpa [indexLoop, hidx] using ih se h
      · have harts : se'.articles = se.articles := by
          unfold indexArticle at hidx
          by_cases hc : a.id = "" ∨ a.title = "" ∨ a.content = ""
          · rw [if_pos hc] at hidx
            exact absurd hidx (by simp)
          · rw [if_neg hc] at hidx
            have := Except.ok.inj hidx
            rw [← this]
        have h' : ∀ e ∈ (mapSet se'.articles a.id a), e.2.id = e.1 := by
          intro e he
          rcases mem_mapSet _ _ _ _ he with hmem | heq
          · exact h e (harts ▸ hmem)
          · rw [heq]
        simp only [indexLoop, hidx]
        by_cases hbreak : ({ se' with
            articles := mapSet se'.articles a.id a } :
            SearchEngine).index.length >
            jsOrNat ({ se' with articles := mapSet se'.articles a.id a } :
              SearchEngine).maxIndexSize 100000
        · rw [if_pos hbreak]
          exact h'
        · rw [if_neg hbreak]
          exact ih _ h'

theorem indexArticles_articles_id (se se' : SearchEngine)
    (docs : List RawDoc) (h : se.indexArticles docs = .ok se') :
    ∀ e ∈ se'.articles, e.2.id = e.1 := by
  obtain ⟨hse', -⟩ := indexArticles_deterministic se se' docs h
  rw [hse']
  exact indexLoop_articles_id docs se.resetState
    (by intro e he; simp [resetState] at he)

end SearchEngine

/-- C8: `search` returns empty for a non-string query and for one below
the effective minimum length; an over-long query is processed as its
truncation to the configured maximum rather than rejected; and every
returned list (over an engine whose article cache stores each document
under its own id, which `indexArticles` guarantees) has at most one entry
per document id, non-increasing scores, and length at most
`max(1, maxResults || 20)` — default 20, never below 1. -/
theorem C8_search_shape :
    (∀ (se : SearchEngine), se.disposed = false →
      se.search .notString = .ok []) ∧
    (∀ (se : SearchEngine) (s : String), se.disposed = false →
      s.length < jsOrNat se.minSearchLength 2 →
      se.search (.str s) = .ok []) ∧
    (∀ (se : SearchEngine) (s : String), se.disposed = false →
      ¬ s.length < jsOrNat se.minSearchLength 2 →
      1 ≤ se.maxQueryLength →
      se.search (.str s) = .ok (se.searchCore (se.validateString s))) ∧
    (∀ (se se' : SearchEngine) (docs : List SearchEngine.RawDoc),
      se.indexArticles docs = .ok se' →
      ∀ e ∈ se'.articles, e.2.id = e.1) ∧
    (∀ (se : SearchEngine) (q : SearchEngine.QueryInput)
      (res : List SearchResult),
      (∀ e ∈ se.articles, e.2.id = e.1) →
      se.search q = .ok res →
      ((res.map (fun r => r.article.id)).Nodup ∧
       List.Pairwise (fun (x y : SearchResult) =>
         y.score ≤ x.score) res ∧
       res.length ≤ max 1 (jsOrNat se.maxResults 20))) := by
  refine ⟨?_, ?_, ?_, ?_, ?_⟩
  · intro se hd
    simp [SearchEngine.search, SearchEngine.checkDisposed, hd]
  · intro se s hd hlen
    simp [SearchEngine.search, SearchEngine.checkDisposed, hd, hlen]
  · intro se s hd hlen hmax
    have hvne : se.validateString s ≠ "" := by
      unfold SearchEngine.validateString
      by_cases htr : s.length > jsOrNat se.maxQueryLength 500
      · rw [if_pos htr]
        unfold jsSubstring0
        intro hcontra
        have hdata : s.data.take se.maxQueryLength = [] :=
          congrArg String.data hcontra
        have h0 : (s.data.take se.maxQueryLength).length = 0 := by
          rw [hdata]
          rfl
        rw [List.length_take] at h0
        have hs0 : s.length ≠ 0 := by
          unfold jsOrNat at hlen
          by_cases hm : se.minSearchLength = 0
          · rw [if_pos hm] at hlen; omega
          · rw [if_neg hm] at hlen; omega
        have hconn : s.length = s.data.length := rfl
        omega
      · rw [if_neg htr]
        intro hcontra
        have hs0 : s.length ≠ 0 := by
          unfold jsOrNat at hlen
          by_cases hm : se.minSearchLength = 0
          · rw [if_pos hm] at hlen; omega
          · rw [if_neg hm] at hlen; omega
        rw [hcontra] at hs0
        exact hs0 rfl
    unfold SearchEngine.search
    rw [show se.checkDisposed = .ok () from by
      simp [SearchEngine.checkDisposed, hd]]
    simp only [bind_pure_comp, Functor.map, Except.map, Except.bind]
    rw [if_neg hlen, if_neg hvne]
  · intro se se' docs h
    exact SearchEngine.indexArticles_articles_id se se' docs h
  · intro se q res hid h
    unfold SearchEngine.search at h
    rcases hdisp : se.disposed with _ | _
    · simp [SearchEngine.checkDisposed, hdisp] at h
      rcases q with _ | s
      · simp at h
        subst h
        exact ⟨by simp, by simp, by simp⟩
      · by_cases hlen : s.length < jsOrNat se.minSearchLength 2
        · simp [hlen] at h
          subst h
          exact ⟨by simp, by simp, by simp⟩
        · by_cases hv : se.validateString s = ""
          · simp [hlen, hv] at h
            subst h
            exact ⟨by simp, by simp, by simp⟩
          · simp [hlen, hv] at h
            subst h
            exact SearchEngine.searchCore_props se _ hid
    · simp [SearchEngine.checkDisposed, hdisp] at h

/-- C8 witness: the sub-claims discharged on a concrete engine built from
one document and the too-short and well-formed query cases. -/
theorem C8_search_shape_witness :
    ({} : SearchEngine).search .notString = .ok [] ∧
    ({} : SearchEngine).search (.str "x") = .ok [] ∧
    ({} : SearchEngine).search (.str "xy") =
      .ok (({} : SearchEngine).searchCore
        (({} : SearchEngine).validateString "xy")) ∧
    (∀ e ∈ (SearchEngine.indexLoop ({} : SearchEngine).resetState
        [SearchEngine.RawDoc.doc docA]).articles, e.2.id = e.1) ∧
    (([] : List SearchResult).map
      (fun r => r.article.id)).Nodup :=
  ⟨C8_search_shape.1 {} rfl,
   C8_search_shape.2.1 {} "x" rfl (by decide),
   C8_search_shape.2.2.1 {} "xy" rfl (by decide) (by decide),
   C8_search_shape.2.2.2.1 {} _ [SearchEngine.RawDoc.doc docA] rfl,
   (C8_search_shape.2.2.2.2 {} .notString [] (by simp) rfl).1⟩

/-- C7: indexing the same document list twice leaves exactly the state of
a single indexing call — each call clears the index and the article cache
before repopulating, so nothing of the first build leaks into the second
— and therefore any fixed query returns identical results. -/
theorem C7_index_idempotent :
    ∀ (se : SearchEngine) (docs : List SearchEngine.RawDoc)
      (q : SearchEngine.QueryInput) (se1 se2 : SearchEngine),
    se.indexArticles docs = .ok se1 →
    se1.indexArticles docs = .ok se2 →
    se2 = se1 ∧ se1.search q = se2.search q := by
  intro se docs q se1 se2 h1 h2
  obtain ⟨hse1, -⟩ := SearchEngine.indexArticles_deterministic se se1 docs h1
  obtain ⟨hse2, -⟩ := SearchEngine.indexArticles_deterministic se1 se2 docs h2
  have hreset : se1.resetState = se.resetState := by
    rw [hse1, SearchEngine.resetState_indexLoop]
    exact SearchEngine.resetState_resetState se
  have heq : se2 = se1 := by
    rw [hse2, hreset, ← hse1]
  exact ⟨heq, by rw [heq]⟩

/-- C7 witness: both indexing calls discharged on a concrete engine and a
one-document list. -/
theorem C7_index_idempotent_witness :
    SearchEngine.indexLoop ({} : SearchEngine).resetState
        [SearchEngine.RawDoc.doc docA] =
      SearchEngine.indexLoop ({} : SearchEngine).resetState
        [SearchEngine.RawDoc.doc docA] ∧
    (SearchEngine.indexLoop ({} : SearchEngine).resetState
        [SearchEngine.RawDoc.doc docA]).search (.str "ab") =
      (SearchEngine.indexLoop ({} : SearchEngine).resetState
        [SearchEngine.RawDoc.doc docA]).search (.str "ab") := by
  have h := C7_index_idempotent ({} : SearchEngine)
    [SearchEngine.RawDoc.doc docA] (.str "ab")
    (SearchEngine.indexLoop ({} : SearchEngine).resetState
      [SearchEngine.RawDoc.doc docA])
    (SearchEngine.indexLoop ({} : SearchEngine).resetState
      [SearchEngine.RawDoc.doc docA]) rfl ?h2
  · exact ⟨by rw [h.1], h.2⟩
  · rfl

/-- C6: the claim as stated is false.  Its posting-uniqueness and
weight-accumulation parts hold (proved in the amended theorem), but the
"consequently" part does not: `search` also scores prefix-extension
terms, so a document containing the term only in its body but a
prefix-extension of it in its title (here `guidebook`) reaches the same
score (10 + 1) as a document containing the term in both title and body
(10 + 1) — not strictly lower. -/
theorem C6_posting_weights_counterexample :
    (((({} : SearchEngine).indexArticles
        [.doc docGuide1, .doc docGuide2]).bind
        (fun s => s.search (.str "guide"))).map
      (fun rs => rs.map (fun r => (r.article.id, r.score)))) =
      .ok [("g1", 11), ("g2", 11)] ∧
    "guide" ∈ ({} : SearchEngine).tokenize docGuide1.title ∧
    "guide" ∈ ({} : SearchEngine).tokenize docGuide1.content ∧
    "guide" ∉ ({} : SearchEngine).tokenize docGuide2.title ∧
    "guide" ∈ ({} : SearchEngine).tokenize docGuide2.content := by
  refine ⟨rfl, by decide, by decide, by decide, by decide⟩

/-- C6 (amended): the inverted index holds at most one posting per
(token, documentId) pair for every indexed document set; indexing a
single document into an empty index records, for each token, exactly the
sum of the contributing field weights (title 10, description 5, tags 4,
categories 4, body 1 — the 1000 cap is unreachable here, the sum being at
most 24), and no posting when no field contains the token.  The
strictly-higher consequence holds when no other indexed term extends the
query term: concretely, `guide` in title and body scores 11 against 1 for
a body-only document. -/
theorem C6_posting_weights_amended :
    (∀ (se se' : SearchEngine) (docs : List SearchEngine.RawDoc),
      se.indexArticles docs = .ok se' →
      SearchEngine.postingsNodup se'.index) ∧
    (∀ (se se' : SearchEngine) (a : Article) (w : String),
      se.index = [] → se.indexArticle a = .ok se' →
      SearchEngine.getWeight se'.index w a.id =
        if SearchEngine.fieldWeightSum se a w = 0 then none
        else some (SearchEngine.fieldWeightSum se a w)) ∧
    (∀ (se : SearchEngine) (a : Article) (w : String),
      SearchEngine.fieldWeightSum se a w ≤ 24) ∧
    (((({} : SearchEngine).indexArticles
        [.doc docGuide1, .doc docGuide3]).bind
        (fun s => s.search (.str "guide"))).map
      (fun rs => rs.map (fun r => (r.article.id, r.score)))) =
      .ok [("g1", 11), ("g3", 1)] := by
  refine ⟨?_, ?_, ?_, rfl⟩
  · intro se se' docs h
    exact SearchEngine.indexArticles_nodup se se' docs h
  · intro se se' a w hidx h
    exact SearchEngine.indexArticle_weight se se' a w hidx h
  · intro se a w
    exact SearchEngine.fieldWeightSum_le se a w

/-! ## `PluginManager` lemmas -/

namespace PluginManager

theorem registerArticleProcessorCore_plugins (pm : PluginManager)
    (n : String) (fn : ProcessorFn) :
    (pm.registerArticleProcessorCore n fn).plugins = pm.plugins ∧
    (pm.registerArticleProcessorCore n fn).activePlugins =
      pm.activePlugins := by
  unfold registerArticleProcessorCore
  split <;> exact ⟨rfl, rfl⟩

theorem registerSearchExtensionCore_plugins (pm : PluginManager)
    (n : String) (fn : SearchExtFn) :
    (pm.registerSearchExtensionCore n fn).plugins = pm.plugins ∧
    (pm.registerSearchExtensionCore n fn).activePlugins =
      pm.activePlugins := by
  unfold registerSearchExtensionCore
  split <;> exact ⟨rfl, rfl⟩

theorem applyActions_plugins :
    ∀ (actions : List CtxAction) (pm : PluginManager) (n : String),
      (pm.applyActions n actions).plugins = pm.plugins ∧
      (pm.applyActions n actions).activePlugins = pm.activePlugins := by
  intro actions
  induction actions with
  | nil => intro pm n; exact ⟨rfl, rfl⟩
  | cons act rest ih =>
    intro pm n
    rcases act with fn | fn | _ | _
    · have h1 := registerArticleProcessorCore_plugins pm n fn
      have h2 := ih (pm.registerArticleProcessorCore n fn) n
      exact ⟨h2.1.trans h1.1, h2.2.trans h1.2⟩
    · have h1 := registerSearchExtensionCore_plugins pm n fn
      have h2 := ih (pm.registerSearchExtensionCore n fn) n
      exact ⟨h2.1.trans h1.1, h2.2.trans h1.2⟩
    · exact ih pm n
    · exact ih pm n

end PluginManager

/-- C2: the claim as stated is false.  The validity check is only
`result && typeof result === 'object' && result.id` — a truthy id, not an
id matching the input — so a processor returning an object with a
different nonempty id is accepted and the final document's id changes. -/
theorem C2_processor_isolation_counterexample :
    let pm : PluginManager :=
      { articleProcessors := [("p", fun _ => .ok (.obj docOther))] }
    (pm.processArticle docA).map (fun a => a.id) = .ok "other" ∧
    docA.id = "a" := by
  exact ⟨rfl, rfl⟩

/-- C2 (amended): a processor that throws, times out, or returns anything
that is not an object with a truthy id is skipped, the previous stage's
document flowing on; a chain containing an always-throwing processor
behaves exactly as the chain without it; and the final id equals the
input id provided every processor's accepted results carry their input's
id (the code checks only truthiness of the returned id, not that it
matches).  Concretely, an always-throwing processor followed by a
well-behaved one still lets the second run, with the id unchanged. -/
theorem C2_processor_isolation_amended :
    (∀ (procs : List (String × ProcessorFn)) (article : Article),
      (∀ p ∈ procs, PluginManager.preservesId p.2) →
      (PluginManager.processArticleCore procs article).id = article.id) ∧
    (∀ (procs1 procs2 : List (String × ProcessorFn)) (n : String)
      (article : Article),
      PluginManager.processArticleCore
          (procs1 ++ [(n, (fun _ => .error () : ProcessorFn))] ++ procs2)
          article =
        PluginManager.processArticleCore (procs1 ++ procs2) article) ∧
    (∀ (pm : PluginManager) (article : Article), pm.disposed = false →
      pm.processArticle article =
        .ok (PluginManager.processArticleCore pm.articleProcessors
          article)) ∧
    (let pm : PluginManager :=
      { articleProcessors :=
          [("bad", fun _ => .error ()),
           ("good", fun x => .ok (.obj { x with title := "t2" }))] }
     (pm.processArticle docA).map (fun a => (a.id, a.title)) =
       .ok ("a", "t2")) := by
  refine ⟨?_, ?_, ?_, rfl⟩
  · intro procs
    induction procs with
    | nil => intro article _; rfl
    | cons p rest ih =>
      intro article hpres
      simp only [PluginManager.processArticleCore, List.foldl_cons]
      have hstep : (match p.2 article with
          | .error _ => article
          | .ok (.obj a) => if a.id ≠ "" then a else article
          | .ok .nonObj => article).id = article.id := by
        rcases hp : p.2 article with e | r
        · rfl
        · rcases r with a | _
          · by_cases ha : a.id ≠ ""
            · show (if a.id ≠ "" then a else article).id = article.id
              rw [if_pos ha]
              exact hpres p (List.mem_cons_self p rest) article a hp ha
            · simp [ha]
          · rfl
      have hrest := ih
        (match p.2 article with
          | .error _ => article
          | .ok (.obj a) => if a.id ≠ "" then a else article
          | .ok .nonObj => article)
        (fun q hq => hpres q (List.mem_cons_of_mem p hq))
      unfold PluginManager.processArticleCore at hrest
      rw [hrest]
      exact hstep
  · intro procs1 procs2 n article
    unfold PluginManager.processArticleCore
    rw [List.append_assoc, List.foldl_append, List.foldl_append,
      List.foldl_append]
    rfl
  · intro pm article hd
    simp [PluginManager.processArticle, PluginManager.checkDisposed, hd]

/-- C2 (amended) witness: the id-preservation part discharged on a
concrete chain of one throwing and one invalid-returning processor. -/
theorem C2_processor_isolation_amended_witness :
    (PluginManager.processArticleCore
      [("bad", (fun _ => .error () : ProcessorFn)),
       ("inv", (fun _ => .ok .nonObj : ProcessorFn))]
      docA).id = docA.id :=
  C2_processor_isolation_amended.1
    [("bad", (fun _ => .error () : ProcessorFn)),
     ("inv", (fun _ => .ok .nonObj : ProcessorFn))] docA
    (by
      intro p hp x a hfn
      rcases List.mem_cons.mp hp with h | h
      · rw [h] at hfn
        simp at hfn
      · rcases List.mem_cons.mp h with h1 | h1
        · rw [h1] at hfn
          simp at hfn
        · simp at h1)

/-- C9: an activation hook that fails to settle before the deadline makes
`registerPlugin` reject, and afterwards the plugin is in neither the
plugin map nor the active set (for a name not already registered) — the
context registrations the hook made before hanging are the only trace. -/
theorem C9_plugin_timeout :
    ∀ (pm : PluginManager) (plugin : Plugin),
    pm.disposed = false →
    mapHas pm.plugins plugin.name = false →
    plugin.name ∉ pm.activePlugins →
    plugin.activate.outcome = .timesOut →
    (pm.registerPlugin (.valid plugin)).1 =
      .error ("Operation timeout after " ++
        toString (jsOrNat pm.timeout 10000) ++ "ms") ∧
    mapHas (pm.registerPlugin (.valid plugin)).2.plugins plugin.name =
      false ∧
    plugin.name ∉ (pm.registerPlugin (.valid plugin)).2.activePlugins := by
  intro pm plugin hd hhas hact houtcome
  obtain ⟨hplugins, hactive⟩ := PluginManager.applyActions_plugins
    plugin.activate.actions pm plugin.name
  unfold PluginManager.registerPlugin
  rw [hd]
  simp only [Bool.false_eq_true, if_neg, not_false_iff]
  rw [if_neg (by simp [hhas])]
  rw [houtcome]
  exact ⟨rfl, by rw [hplugins]; exact hhas, by rw [hactive]; exact hact⟩

/-- C9 witness: the theorem discharged on an empty manager and a concrete
never-settling plugin. -/
theorem C9_plugin_timeout_witness :
    (({} : PluginManager).registerPlugin (.valid pluginTimeout)).1 =
      .error "Operation timeout after 10000ms" ∧
    mapHas (({} : PluginManager).registerPlugin
      (.valid pluginTimeout)).2.plugins pluginTimeout.name = false ∧
    pluginTimeout.name ∉ (({} : PluginManager).registerPlugin
      (.valid pluginTimeout)).2.activePlugins :=
  C9_plugin_timeout {} pluginTimeout rfl rfl (by simp) rfl

/-- C5: the claim as stated is false.  `createArticleFromMarkdown` never
checks the disposed flag, so it still succeeds on a disposed
`ArticleManager`; `PluginManager.dispose` returns silently when already
disposed, and `PluginManager.cleanup` has no disposed check either. -/
theorem C5_dispose_counterexample :
    amDisposed.disposed = true ∧
    (amDisposed.createArticleFromMarkdown "a" "hello" ⟨0, 1970⟩).map
      (fun a => a.id) = .ok "a" ∧
    pmDisposed.dispose = pmDisposed ∧
    pmDisposed.cleanup = pmDisposed := by
  exact ⟨rfl, rfl, rfl, rfl⟩

/-- C5 (amended): after disposal every public operation that calls the
disposed check throws — on `ArticleManager` all of them except
`createArticleFromMarkdown` (which never checks and still succeeds on
valid input); on `SearchEngine` all public operations including a second
`dispose`; on `PluginManager` all except `dispose` (silent return) and
`cleanup` (no check). -/
theorem C5_dispose_amended :
    (∀ (m : ArticleManager) (a : Article) (id : String)
      (f : Option ArticleManager.ArticleFilter)
      (o : Option ArticleManager.ListOptions) (lim : Int),
      m.disposed = true →
      m.addArticle a = .error "ArticleManager has been disposed" ∧
      m.getArticles = .error "ArticleManager has been disposed" ∧
      m.getArticleById id = .error "ArticleManager has been disposed" ∧
      m.getArticleList f o = .error "ArticleManager has been disposed" ∧
      m.getRelatedArticles id lim =
        .error "ArticleManager has been disposed" ∧
      m.getTagStats = .error "ArticleManager has been disposed" ∧
      m.getCategoryStats = .error "ArticleManager has been disposed" ∧
      m.getStats = .error "ArticleManager has been disposed" ∧
      m.clear = .error "ArticleManager has been disposed" ∧
      m.dispose = .error "ArticleManager has been disposed") ∧
    (∀ (m : ArticleManager) (id content : String) (now : DateVal),
      jsTrim id ≠ "" →
      (m.createArticleFromMarkdown id content now).isOk = true) ∧
    (∀ (se : SearchEngine) (docs : List SearchEngine.RawDoc)
      (q : SearchEngine.QueryInput), se.disposed = true →
      se.indexArticles docs = .error "SearchEngine has been disposed" ∧
      se.search q = .error "SearchEngine has been disposed" ∧
      se.clear = .error "SearchEngine has been disposed" ∧
      se.getStats = .error "SearchEngine has been disposed" ∧
      se.dispose = .error "SearchEngine has been disposed") ∧
    (∀ (pm : PluginManager) (p : RawPlugin) (name : String)
      (fn : ProcessorFn) (efn : SearchExtFn) (a : Article) (q : String)
      (arts : List Article), pm.disposed = true →
      (pm.registerPlugin p).1 =
        .error "PluginManager has been disposed" ∧
      (pm.unregisterPlugin name).1 =
        .error "PluginManager has been disposed" ∧
      pm.registerArticleProcessor name fn =
        .error "PluginManager has been disposed" ∧
      pm.registerSearchExtension name efn =
        .error "PluginManager has been disposed" ∧
      pm.processArticle a = .error "PluginManager has been disposed" ∧
      pm.executeSearchExtensions q arts =
        .error "PluginManager has been disposed" ∧
      pm.getPlugins = .error "PluginManager has been disposed" ∧
      pm.getActivePlugins = .error "PluginManager has been disposed" ∧
      pm.getPluginInfo name = .error "PluginManager has been disposed" ∧
      pm.getProcessorStats = .error "PluginManager has been disposed") := by
  refine ⟨?_, ?_, ?_, ?_⟩
  · intro m a id f o lim hd
    refine ⟨?_, ?_, ?_, ?_, ?_, ?_, ?_, ?_, ?_, ?_⟩ <;>
      simp [ArticleManager.addArticle, ArticleManager.getArticles,
        ArticleManager.getArticleById, ArticleManager.getArticleList,
        ArticleManager.getRelatedArticles, ArticleManager.getTagStats,
        ArticleManager.getCategoryStats, ArticleManager.getStats,
        ArticleManager.clear, ArticleManager.dispose,
        ArticleManager.checkDisposed, hd, Bind.bind, Except.bind]
  · intro m id content now hne
    unfold ArticleManager.createArticleFromMarkdown
    rw [if_neg hne]
    rfl
  · intro se docs q hd
    refine ⟨?_, ?_, ?_, ?_, ?_⟩ <;>
      simp [SearchEngine.indexArticles, SearchEngine.search,
        SearchEngine.clear, SearchEngine.getStats, SearchEngine.dispose,
        SearchEngine.checkDisposed, hd]
  · intro pm p name fn efn a q arts hd
    refine ⟨?_, ?_, ?_, ?_, ?_, ?_, ?_, ?_, ?_, ?_⟩ <;>
      simp [PluginManager.registerPlugin, PluginManager.unregisterPlugin,
        PluginManager.registerArticleProcessor,
        PluginManager.registerSearchExtension,
        PluginManager.processArticle,
        PluginManager.executeSearchExtensions, PluginManager.getPlugins,
        PluginManager.getActivePlugins, PluginManager.getPluginInfo,
        PluginManager.getProcessorStats, PluginManager.checkDisposed, hd]

/-- C5 (amended) witness: the disposed-rejection parts discharged on
concrete disposed instances of the three components. -/
theorem C5_dispose_amended_witness :
    amDisposed.getArticles = .error "ArticleManager has been disposed" ∧
    seDisposed.search .notString =
      .error "SearchEngine has been disposed" ∧
    (pmDisposed.registerPlugin .invalid).1 =
      .error "PluginManager has been disposed" ∧
    (amDisposed.createArticleFromMarkdown "a" "hello"
      ⟨0, 1970⟩).isOk = true :=
  ⟨(C5_dispose_amended.1 amDisposed docA "x" none none 3 rfl).2.1,
   (C5_dispose_amended.2.2.1 seDisposed [] .notString rfl).2.1,
   (C5_dispose_amended.2.2.2 pmDisposed .invalid "x"
     (fun _ => .error ()) (fun _ _ => .error ()) docA "q" [] rfl).1,
   C5_dispose_amended.2.1 amDisposed "a" "hello" ⟨0, 1970⟩ (by decide)⟩

/-- C3: the claim as stated is false.  With `maxSize = 2` and the LRU
policy, inserting the fresh keys A, B and C at times 0, 1 and 2 (with a
100ms default expiry, so no entry is expired yet) evicts nothing — the LRU
branch only considers entries whose `expiresAt` lies strictly before
`Date.now()` — and the cache grows to 3 entries, exceeding `maxSize`. -/
theorem C3_cache_eviction_counterexample :
    (((((Cache.MemoryCache.mk' (T := Nat) 100 2 .lru).set "A" 1 0
        none).set "B" 2 1 none).set "C" 3 2 none).cache.length = 3) ∧
    (Cache.MemoryCache.mk' (T := Nat) 100 2 .lru).maxSize = 2 ∧
    mapKeys (((((Cache.MemoryCache.mk' (T := Nat) 100 2 .lru).set "A" 1 0
        none).set "B" 2 1 none).set "C" 3 2 none).cache) =
      ["A", "B", "C"] := by
  refine ⟨?_, rfl, ?_⟩ <;> decide

/-- C3 (amended): a `set` on an already-present key never triggers
eviction; the eviction routine deletes the policy-minimal entry only when
one qualifies (LRU: already-expired entries only; FIFO: entries created
strictly before now; LFU: always, for a nonempty cache whose keys are
nonempty strings), ties broken by the first entry encountered; hence under
LFU the size never exceeds `maxSize`, and the concrete scenarios hold:
with `maxSize = 2` and FIFO, inserting A, B, C at strictly increasing
times evicts A; with LFU, getting A once before inserting C evicts B; and
with LFU and no gets, A and B tie at zero hits and the first-encountered
entry A is evicted. -/
theorem C3_cache_eviction_amended :
    (∀ (c : Cache.MemoryCache Nat) (key : String) (v : Nat) (now : Int)
        (ms : Option Int), mapHas c.cache key = true →
        c.set key v now ms =
          { c with cache := (mapSet c.cache key
              ⟨v, now + ms.getD c.defaultExpireMs, now, 0⟩) }) ∧
    (∀ (c : Cache.MemoryCache Nat) (key : String) (v : Nat) (now : Int)
        (ms : Option Int), c.evictionPolicy = .lfu →
        c.cache.length ≤ c.maxSize → 1 ≤ c.maxSize →
        "" ∉ mapKeys c.cache →
        (c.set key v now ms).cache.length ≤ c.maxSize) ∧
    mapKeys (((((Cache.MemoryCache.mk' (T := Nat) 100 2 .fifo).set "A" 1 0
        none).set "B" 2 1 none).set "C" 3 2 none).cache) = ["B", "C"] ∧
    (let c := ((Cache.MemoryCache.mk' (T := Nat) 100 2 .lfu).set "A" 1 0
        none).set "B" 2 1 none
     let c := (c.get "A" 2).2
     mapKeys ((c.set "C" 3 3 none).cache) = ["A", "C"]) ∧
    mapKeys (((((Cache.MemoryCache.mk' (T := Nat) 100 2 .lfu).set "A" 1 0
        none).set "B" 2 1 none).set "C" 3 2 none).cache) = ["B", "C"] := by
  refine ⟨?_, ?_, by decide, by decide, by decide⟩
  · intro c key v now ms h
    unfold Cache.MemoryCache.set
    rw [if_neg (by simp [h])]
  · intro c key v now ms hp hlen hmax hempty
    exact Cache.lfu_set_le c key v now ms hp hlen hmax hempty

end Blog

